import Mathlib

/-!
# slips-core: verification of the spec claims against the source

Shallow embedding of the correctness-sensitive core of the slips-core
backend: the JWT credential verifier (`pkg/auth/jwt.go`), the
authentication interceptor (`pkg/auth/interceptor.go`), the MCP
API-token store (`internal/mcptoken`), and the task engine
(`internal/task`: application service, postgres repository queries and
gRPC server).

Conventions of the embedding:
* UUIDs are `Nat`; user identifiers are `String`; instants are `Int`
  (unix seconds) and `NOW()` / `time.Now()` is an explicit `now`
  parameter; calendar dates are a `Date` structure.
* The relational store is an explicit `Store` record of row lists;
  each SQL query of `queries/*.sql` becomes a function on `Store`.
* Fallible Go functions returning `(T, error)` become `Except E T`;
  where a claim concerns a collaborator failure (the database refusing
  an insert) the failure is injected through an explicit oracle
  argument, everywhere else collaborator calls are modelled as
  succeeding.
-/

namespace SlipsCore

/-! ## Credential verifier: `pkg/auth/jwt.go` (`JWTValidator.ValidateToken`) -/

namespace JWT

/-- The claims carried by an Identra JWT, mirroring `Claims` in
`pkg/auth/jwt.go`: registered claims `iss`, `sub`, `exp` plus the
custom `typ` and `user_id` claims.  Absent string claims are `""`
(Go zero value with `omitempty`), an absent `exp` is `none`. -/
structure Claims where
  issuer : String
  subject : String
  expiresAt : Option Int
  typ : String
  userID : String
deriving Repr, DecidableEq

/-- A parsed (but unverified) JWT as the validator sees it: the header
algorithm (whether it is in the RSA family), the header `kid`, the
claims, and the public-key material that actually verifies the token's
signature (the key whose private half signed it). -/
structure Token where
  algRSA : Bool
  kid : Option String
  claims : Claims
  sigKey : String
deriving Repr, DecidableEq

/-- `JWTValidator`: the configured expected issuer and the JWKS key
cache, an association from key id to public-key material. -/
structure JWTValidator where
  expectedIssuer : String
  keys : List (String × String)
deriving Repr, DecidableEq

/-- Errors produced inside `jwt.ParseWithClaims` (the keyfunc of
`ValidateToken` plus the library's signature and registered-claims
checks); all of them surface wrapped in `ErrInvalidToken`. -/
inductive ParseError where
  | unexpectedSigningMethod
  | missingKid
  | unknownKid
  | badSignature
  | tokenExpired
deriving Repr, DecidableEq

/-- The error outcomes of `JWTValidator.ValidateToken`. -/
inductive ValidateError where
  | invalidToken (e : ParseError)
  | invalidTokenType
  | invalidIssuer
  | expired
deriving Repr, DecidableEq

/-- The keyfunc closure passed to `jwt.ParseWithClaims` in
`ValidateToken`: reject non-RSA signing methods, require a `kid`
header, and look the `kid` up in the key cache. -/
def keyfunc (v : JWTValidator) (t : Token) : Except ParseError String :=
  if ¬ t.algRSA then .error .unexpectedSigningMethod
  else
    match t.kid with
    | none => .error .missingKid
    | some kid =>
      match (v.keys.find? (fun p => p.1 == kid)) with
      | none => .error .unknownKid
      | some p => .ok p.2

/-- `jwt.ParseWithClaims` as used by `ValidateToken`: obtain the key
via the keyfunc, verify the signature against it, and run the
library's default registered-claims validation (golang-jwt v5
validates `exp`, when present, against the current time). -/
def parseWithClaims (v : JWTValidator) (t : Token) (now : Int) :
    Except ParseError Claims :=
  match keyfunc v t with
  | .error e => .error e
  | .ok pk =>
    if t.sigKey ≠ pk then .error .badSignature
    else
      match t.claims.expiresAt with
      | some e => if e ≤ now then .error .tokenExpired else .ok t.claims
      | none => .ok t.claims

/-- `JWTValidator.ValidateToken` (`pkg/auth/jwt.go`): parse and verify,
then check `typ = "access"`, then the issuer, then the (already
library-checked) expiration. -/
def validateToken (v : JWTValidator) (t : Token) (now : Int) :
    Except ValidateError Claims :=
  match parseWithClaims v t now with
  | .error e => .error (.invalidToken e)
  | .ok claims =>
    if claims.typ ≠ "access" then .error .invalidTokenType
    else if claims.issuer ≠ v.expectedIssuer then .error .invalidIssuer
    else
      match claims.expiresAt with
      | some e => if e < now then .error .expired else .ok claims
      | none => .ok claims

/-- `ExtractUserID` (`pkg/auth/jwt.go`): prefer the `user_id` claim,
fall back to `sub`, error when both are empty. -/
def extractUserID (c : Claims) : Except String String :=
  if c.userID ≠ "" then .ok c.userID
  else if c.subject ≠ "" then .ok c.subject
  else .error "no user ID found in token claims"

/-- The "signature verifies under the public key whose identifier
matches the token header's key id" condition of the claim: an RSA
header, a `kid` that is a known key id, and the token's signing key
being that key (an absent or unknown `kid` fails it). -/
def sigVerifies (v : JWTValidator) (t : Token) : Bool :=
  match t.kid with
  | none => false
  | some kid =>
    match v.keys.find? (fun p => p.1 == kid) with
    | none => false
    | some pr => t.sigKey == pr.2

/-- The "expiration claim, when present, is in the future" condition
of the claim. -/
def expOk (t : Token) (now : Int) : Bool :=
  match t.claims.expiresAt with
  | none => true
  | some e => now < e

end JWT

/-! ## API-token store: `internal/mcptoken` -/

namespace MCP

/-- `MCPToken` (`internal/mcptoken/domain/mcp_token.go`). -/
structure MCPToken where
  id : Nat
  token : Nat
  userID : String
  name : String
  createdAt : Int
  expiresAt : Option Int
  lastUsedAt : Option Int
  isActive : Bool
deriving Repr, DecidableEq

/-- `MCPToken.IsExpired`: `time.Now().After(*ExpiresAt)` when an expiry
is set, never expired otherwise. -/
def IsExpired (t : MCPToken) (now : Int) : Bool :=
  match t.expiresAt with
  | none => false
  | some e => now > e

/-- `MCPToken.IsValid`: active and not expired. -/
def IsValid (t : MCPToken) (now : Int) : Bool :=
  t.isActive && !(IsExpired t now)

/-- Error outcomes of `Service.ValidateToken`
(`internal/mcptoken/application/service.go`): the repository's
no-row error, "token is inactive", "token is expired". -/
inductive ValidateError where
  | notFound
  | inactive
  | expired
deriving Repr, DecidableEq

/-- `GetMCPTokenByToken` (`queries/mcp_token.sql`): the row whose
unique `token` column equals the presented value. -/
def getByToken (store : List MCPToken) (tokenValue : Nat) : Option MCPToken :=
  store.find? (fun t => t.token == tokenValue)

/-- `Service.ValidateToken` (`internal/mcptoken/application/service.go`):
look the record up by token value, then branch on `IsValid` exactly as
the Go code does (inactive checked before expired inside the
`!IsValid` branch), finally return the owner's user id.  The detached
last-used-timestamp update has no effect on the result. -/
def validateToken (store : List MCPToken) (tokenValue : Nat) (now : Int) :
    Except ValidateError String :=
  match getByToken store tokenValue with
  | none => .error .notFound
  | some t =>
    if !(IsValid t now) then
      if !t.isActive then .error .inactive
      else if IsExpired t now then .error .expired
      else .ok t.userID
    else .ok t.userID

/-- The proto `MCPToken` message the gRPC server returns
(`gen/api/proto/mcptoken/v1`): note it carries a `token` field. -/
structure ProtoToken where
  id : Nat
  token : Nat
  name : String
  createdAt : Int
  isActive : Bool
  expiresAt : Option Int
  lastUsedAt : Option Int
deriving Repr, DecidableEq

/-- `MCPTokenServer.toProto` (`internal/mcptoken/infra/grpc/server.go`):
the shared domain→proto conversion — it copies the secret `Token`
value into the response message. -/
def toProto (t : MCPToken) : ProtoToken :=
  ⟨t.id, t.token, t.name, t.createdAt, t.isActive, t.expiresAt, t.lastUsedAt⟩

/-- Error outcomes of `Service.GetToken`. -/
inductive GetError where
  | notFound
  | unauthorized
deriving Repr, DecidableEq

/-- `Service.GetToken`: fetch by id (`GetMCPTokenByID`), then verify
ownership. -/
def svcGetToken (store : List MCPToken) (owner : String) (id : Nat) :
    Except GetError MCPToken :=
  match store.find? (fun t => t.id == id) with
  | none => .error .notFound
  | some t =>
    if t.userID ≠ owner then .error .unauthorized else .ok t

/-- `MCPTokenServer.GetMCPToken`: the service result through
`toProto`. -/
def grpcGetMCPToken (store : List MCPToken) (owner : String) (id : Nat) :
    Except GetError ProtoToken :=
  match svcGetToken store owner id with
  | .error e => .error e
  | .ok t => .ok (toProto t)

/-- `ORDER BY created_at DESC` of `ListMCPTokensByUserID`. -/
def mcpRowLe (a b : MCPToken) : Prop :=
  b.createdAt ≤ a.createdAt

instance : DecidableRel mcpRowLe := fun a b => by
  unfold mcpRowLe; infer_instance

/-- `Service.ListTokens` via `ListMCPTokensByUserID`: the caller's own
tokens, newest first. -/
def svcListTokens (store : List MCPToken) (owner : String) :
    List MCPToken :=
  (store.filter (fun t => t.userID == owner)).insertionSort mcpRowLe

/-- `MCPTokenServer.ListMCPTokens`: every listed token through
`toProto`. -/
def grpcListMCPTokens (store : List MCPToken) (owner : String) :
    List ProtoToken :=
  (svcListTokens store owner).map toProto

/-- `Service.CreateToken` + `MCPTokenServer.CreateMCPToken`: a fresh
record (`uuid.New()` modelled by the `newId`/`newToken` arguments,
`is_active` true) inserted and returned through `toProto`. -/
def grpcCreateMCPToken (store : List MCPToken) (owner name : String)
    (expiresAt : Option Int) (newId newToken : Nat) (now : Int) :
    List MCPToken × ProtoToken :=
  let t : MCPToken := ⟨newId, newToken, owner, name, now, expiresAt, none, true⟩
  (store ++ [t], toProto t)

end MCP

/-! ## Request identity resolver: `pkg/auth` interceptor -/

namespace Interceptor

/-- `strings.HasPrefix(s, p)` on character lists. -/
def charsPrefix : List Char → List Char → Bool
  | [], _ => true
  | _ :: _, [] => false
  | a :: as, b :: bs => a == b && charsPrefix as bs

/-- `strings.HasPrefix(s, p)`. -/
def hasPrefixGo (s p : String) : Bool :=
  charsPrefix p.toList s.toList

/-- Split a character list at the first space, when one occurs. -/
def breakAtSpace : List Char → List Char × Option (List Char)
  | [] => ([], none)
  | c :: rest =>
    if c = ' ' then ([], some rest)
    else
      let p := breakAtSpace rest
      (c :: p.1, p.2)

/-- `strings.SplitN(s, " ", 2)`: at most two parts, split at the first
space. -/
def splitN2 (s : String) : List String :=
  match breakAtSpace s.toList with
  | (_, none) => [s]
  | (pre, some post) => [String.mk pre, String.mk post]

/-- `strings.ToLower` (ASCII case folding suffices here). -/
def toLowerGo (s : String) : String :=
  String.mk (s.toList.map Char.toLower)

/-- `ExtractBearerToken` (`pkg/auth/jwt.go`): split the header at the
first space; the scheme must be `bearer` case-insensitively. -/
def extractBearerToken (authHeader : String) : Except String String :=
  if authHeader = "" then .error "missing authorization header"
  else
    match splitN2 authHeader with
    | [scheme, tok] =>
      if toLowerGo scheme ≠ "bearer" then
        .error "invalid authorization header format"
      else .ok tok
    | _ => .error "invalid authorization header format"

/-- `ExtractMCPToken` (`pkg/auth/mcptoken.go`): split at the first
space, require the exact `MCP-Token` scheme, and parse the value as a
UUID; `uuidParse` stands for `uuid.Parse` of the collaborator
library. -/
def extractMCPToken (uuidParse : String → Option Nat) (authHeader : String) :
    Except String Nat :=
  match splitN2 authHeader with
  | [scheme, value] =>
    if scheme ≠ "MCP-Token" then .error "expected MCP-Token scheme"
    else
      match uuidParse value with
      | none => .error "invalid UUID format"
      | some u => .ok u
  | _ => .error "invalid MCP token format"

/-- Incoming request metadata: the values of the `authorization` key
(`metadata.FromIncomingContext` + `md.Get("authorization")`);
`none` models a context carrying no gRPC metadata at all. -/
structure Metadata where
  authorization : List String
deriving Repr, DecidableEq

/-- Modelled from the spec: `isAuthServicePublicMethod`.  The function
itself is not under `src/` — only its unit tests
(`TestIsAuthServicePublicMethod`) and the spec's fixed public
allowlist (authorization-URL issuance, OAuth callback handling, token
refresh, recognized by exact operation name matching) describe it. -/
def isAuthServicePublicMethod (fullMethod : String) : Bool :=
  fullMethod == "/auth.v1.AuthService/GetAuthorizationURL" ||
  fullMethod == "/auth.v1.AuthService/HandleCallback" ||
  fullMethod == "/auth.v1.AuthService/RefreshToken"

/-- Outcome of one interceptor run: either the wrapped handler was
invoked (with the user id the interceptor attached to the context, or
`none` on the public path that attaches nothing), or the request was
rejected with `Unauthenticated`. -/
inductive Outcome where
  | handled (userID : Option String)
  | unauthenticated (msg : String)
deriving Repr, DecidableEq

/-- `UnaryServerInterceptorWithMCP` (`pkg/auth/interceptor.go`).  The
credential path (metadata extraction, scheme dispatch to the JWT
validator or the MCP-token validator) is translated from the
`UnaryServerInterceptorWithMCP` in the sources; the public-allowlist
bypass in front of it is modelled from the spec (§4.2) and the unit
tests `TestUnaryServerInterceptorWithMCP_PublicMethod` /
`_NonPublicMethod_MissingAuth`, the allowlist-aware interceptor body
itself not being under `src/`.  `jwtValidate` and `mcpValidate` stand
for the two injected validators. -/
def interceptWithMCP
    (jwtValidate : String → Except JWT.ValidateError JWT.Claims)
    (mcpValidate : Nat → Except MCP.ValidateError String)
    (uuidParse : String → Option Nat)
    (md : Option Metadata) (fullMethod : String) : Outcome :=
  if isAuthServicePublicMethod fullMethod then .handled none
  else
    match md with
    | none => .unauthenticated "missing metadata"
    | some m =>
      match m.authorization with
      | [] => .unauthenticated "missing authorization header"
      | authHeader :: _ =>
        if hasPrefixGo authHeader "Bearer " then
          match extractBearerToken authHeader with
          | .error e => .unauthenticated e
          | .ok tokenString =>
            match jwtValidate tokenString with
            | .error _ => .unauthenticated "invalid JWT token"
            | .ok claims =>
              match JWT.extractUserID claims with
              | .error _ => .unauthenticated "invalid token claims"
              | .ok userID => .handled (some userID)
        else if hasPrefixGo authHeader "MCP-Token " then
          match extractMCPToken uuidParse authHeader with
          | .error _ => .unauthenticated "invalid MCP token format"
          | .ok token =>
            match mcpValidate token with
            | .error _ => .unauthenticated "invalid MCP token"
            | .ok userID => .handled (some userID)
        else .unauthenticated "unsupported authentication scheme"

/-- "A credential was required and checked": the first authorization
header value resolved through one of the two schemes — a bearer token
the JWT validator accepted whose claims yield the user id, or an MCP
token the API-token store accepted for that user. -/
def credentialValidated
    (jwtValidate : String → Except JWT.ValidateError JWT.Claims)
    (mcpValidate : Nat → Except MCP.ValidateError String)
    (uuidParse : String → Option Nat) (hd : String) (u : String) : Prop :=
  (∃ ts c, extractBearerToken hd = .ok ts ∧
    jwtValidate ts = .ok c ∧ JWT.extractUserID c = .ok u) ∨
  (∃ tok, extractMCPToken uuidParse hd = .ok tok ∧
    mcpValidate tok = .ok u)

end Interceptor

/-! ## Task engine: `internal/task` -/

namespace Task

/-- A pure calendar date (`start_date`: no time-of-day, no timezone). -/
structure Date where
  year : Nat
  month : Nat
  day : Nat
deriving Repr, DecidableEq

/-- Model of the Go standard library's Gregorian leap-year rule. -/
def isLeapYear (y : Nat) : Bool :=
  (y % 4 == 0 && y % 100 != 0) || y % 400 == 0

/-- Days in a month, as validated by `time.Parse`. -/
def daysInMonth (y m : Nat) : Nat :=
  if m == 2 then (if isLeapYear y then 29 else 28)
  else if m == 4 || m == 6 || m == 9 || m == 11 then 30
  else 31

/-- Numeric value of a digit string. -/
def digitsVal (l : List Char) : Nat :=
  l.foldl (fun a c => a * 10 + (c.toNat - 48)) 0

/-- `strings.Split`-style splitting of a character list at a
separator character (empty segments preserved). -/
def splitChar (sep : Char) : List Char → List (List Char)
  | [] => [[]]
  | c :: rest =>
    if c = sep then [] :: splitChar sep rest
    else
      match splitChar sep rest with
      | [] => [[c]]
      | g :: gs => (c :: g) :: gs

/-- Model of the collaborator call `time.Parse("2006-01-02", s)`:
a 4-digit year and 1-or-2-digit month/day separated by `-`, with the
month and the day-of-month range-checked. -/
def parseGoDate (s : String) : Option Date :=
  match splitChar '-' s.toList with
  | [ys, ms, ds] =>
    if ys.length == 4 && ys.all Char.isDigit
        && 1 ≤ ms.length && ms.length ≤ 2 && ms.all Char.isDigit
        && 1 ≤ ds.length && ds.length ≤ 2 && ds.all Char.isDigit then
      let y := digitsVal ys
      let m := digitsVal ms
      let d := digitsVal ds
      if 1 ≤ m && m ≤ 12 && 1 ≤ d && d ≤ daysInMonth y m then
        some ⟨y, m, d⟩
      else none
    else none
  | _ => none

/-- A row of the `tasks` table.  `archived_at IS NULL` = active;
`start_date IS NULL` = inbox classification. -/
structure TaskRow where
  id : Nat
  title : String
  notes : String
  ownerID : String
  archivedAt : Option Int
  createdAt : Int
  updatedAt : Int
  startDate : Option Date
deriving Repr, DecidableEq

/-- A row of `task_checklist_items`, which is also `domain.ChecklistItem`
(the repository's `checklistItemFromDB` is a field-for-field copy). -/
structure ChecklistItem where
  id : Nat
  taskID : Nat
  content : String
  completed : Bool
  sortOrder : Int
  createdAt : Int
  updatedAt : Int
deriving Repr, DecidableEq

/-- A row of the `tags` table (fields the task engine consumes). -/
structure TagRow where
  id : Nat
  name : String
  ownerID : String
deriving Repr, DecidableEq

/-- The relational store: `tasks`, `task_tags`, `task_checklist_items`
and `tags`. -/
structure Store where
  tasks : List TaskRow
  taskTags : List (Nat × Nat)
  checklist : List ChecklistItem
  tags : List TagRow
deriving Repr, DecidableEq

/-- `domain.Task` as returned to the service / gRPC layers. -/
structure DomainTask where
  id : Nat
  title : String
  notes : String
  tagIDs : List Nat
  checklist : List ChecklistItem
  ownerID : String
  archivedAt : Option Int
  createdAt : Int
  updatedAt : Int
  startDate : Option Date
deriving Repr, DecidableEq

/-- `gen_random_uuid()` for a task row, modelled as max id + 1. -/
def freshTaskId (st : Store) : Nat :=
  (st.tasks.map (·.id)).foldr max 0 + 1

/-- `gen_random_uuid()` for a checklist row, modelled as max id + 1. -/
def freshItemId (st : Store) : Nat :=
  (st.checklist.map (·.id)).foldr max 0 + 1

/-- `gen_random_uuid()` for a tag row, modelled as max id + 1. -/
def freshTagId (st : Store) : Nat :=
  (st.tags.map (·.id)).foldr max 0 + 1

/-- `GetTask` (`queries/task.sql`): `WHERE id = $1 AND owner_id = $2`. -/
def getTaskQ (st : Store) (id : Nat) (owner : String) : Option TaskRow :=
  st.tasks.find? (fun t => t.id == id && t.ownerID == owner)

/-- `GetTaskTagIDs`: tag ids associated with the task. -/
def getTaskTagIDsQ (st : Store) (taskID : Nat) : List Nat :=
  (st.taskTags.filter (fun p => p.1 == taskID)).map (·.2)

/-- `CreateTask` (`queries/task.sql`): insert a task row; `archived_at`
defaults to `NULL`, timestamps to `NOW()`. -/
def createTaskQ (st : Store) (title notes owner : String)
    (startDate : Option Date) (now : Int) : Store × TaskRow :=
  let row : TaskRow :=
    ⟨freshTaskId st, title, notes, owner, none, now, now, startDate⟩
  ({ st with tasks := st.tasks ++ [row] }, row)

/-- `CreateTaskTag`: insert an association, `ON CONFLICT DO NOTHING`. -/
def createTaskTagQ (st : Store) (taskID tagID : Nat) : Store :=
  if st.taskTags.contains (taskID, tagID) then st
  else { st with taskTags := st.taskTags ++ [(taskID, tagID)] }

/-- `DeleteTaskTags`: drop every association of the task. -/
def deleteTaskTagsQ (st : Store) (taskID : Nat) : Store :=
  { st with taskTags := st.taskTags.filter (fun p => p.1 != taskID) }

/-- `UpdateTask` (`queries/task.sql`): set title/notes/`updated_at`/
`start_date` on the owner's row, returning the updated row (`none`
models sqlc's `ErrNoRows` when the task is absent or foreign). -/
def updateTaskQ (st : Store) (id : Nat) (title notes owner : String)
    (startDate : Option Date) (now : Int) : Store × Option TaskRow :=
  match getTaskQ st id owner with
  | none => (st, none)
  | some _ =>
    let st' := { st with tasks := st.tasks.map (fun t =>
      if t.id == id && t.ownerID == owner then
        { t with title := title, notes := notes, updatedAt := now,
                 startDate := startDate }
      else t) }
    (st', getTaskQ st' id owner)

/-- `ORDER BY ci.sort_order ASC, ci.created_at ASC` as a relation. -/
def ciKeyLe (a b : ChecklistItem) : Prop :=
  a.sortOrder < b.sortOrder ∨
    (a.sortOrder = b.sortOrder ∧ a.createdAt ≤ b.createdAt)

instance : DecidableRel ciKeyLe := fun a b => by
  unfold ciKeyLe; infer_instance

instance : IsTotal ChecklistItem ciKeyLe := by
  constructor
  intro a b
  unfold ciKeyLe
  omega

instance : IsTrans ChecklistItem ciKeyLe := by
  constructor
  intro a b c hab hbc
  unfold ciKeyLe at *
  omega

/-- `ListChecklistItems` (`queries/task.sql`): the task's items when
the task is owned by the caller (the `JOIN tasks`), in
`(sort_order, created_at)` order. -/
def listChecklistItemsQ (st : Store) (taskID : Nat) (owner : String) :
    List ChecklistItem :=
  if (getTaskQ st taskID owner).isSome then
    (st.checklist.filter (fun c => c.taskID == taskID)).insertionSort ciKeyLe
  else []

/-- `MAX(sort_order)` over the task's checklist rows. -/
def maxSortOrder? (st : Store) (taskID : Nat) : Option Int :=
  ((st.checklist.filter (fun c => c.taskID == taskID)).map (·.sortOrder)).max?

/-- `AddChecklistItem` (`queries/task.sql`): insert at
`COALESCE(MAX(sort_order) + 1, 0)` provided the task exists under the
caller (`none` models `ErrNoRows`). -/
def addChecklistItemQ (st : Store) (taskID : Nat) (owner content : String)
    (now : Int) : Store × Option ChecklistItem :=
  if (getTaskQ st taskID owner).isSome then
    let ord : Int := match maxSortOrder? st taskID with
      | none => 0
      | some m => m + 1
    let row : ChecklistItem := ⟨freshItemId st, taskID, content, false, ord, now, now⟩
    ({ st with checklist := st.checklist ++ [row] }, some row)
  else (st, none)

/-- The `FROM tasks t ... ci.task_id = t.id AND t.owner_id = $owner`
join used by the checklist item UPDATE/DELETE queries. -/
def findOwnedItem (st : Store) (itemID : Nat) (owner : String) :
    Option ChecklistItem :=
  st.checklist.find? (fun c =>
    c.id == itemID && (getTaskQ st c.taskID owner).isSome)

/-- `UpdateChecklistItemContent` (`queries/task.sql`). -/
def updateChecklistItemContentQ (st : Store) (itemID : Nat)
    (content owner : String) (now : Int) : Store × Option ChecklistItem :=
  match findOwnedItem st itemID owner with
  | none => (st, none)
  | some _ =>
    let st' := { st with checklist := st.checklist.map (fun c =>
      if c.id == itemID && (getTaskQ st c.taskID owner).isSome then
        { c with content := content, updatedAt := now }
      else c) }
    (st', findOwnedItem st' itemID owner)

/-- `SetChecklistItemCompleted` (`queries/task.sql`). -/
def setChecklistItemCompletedQ (st : Store) (itemID : Nat)
    (completed : Bool) (owner : String) (now : Int) :
    Store × Option ChecklistItem :=
  match findOwnedItem st itemID owner with
  | none => (st, none)
  | some _ =>
    let st' := { st with checklist := st.checklist.map (fun c =>
      if c.id == itemID && (getTaskQ st c.taskID owner).isSome then
        { c with completed := completed, updatedAt := now }
      else c) }
    (st', findOwnedItem st' itemID owner)

/-- `DeleteChecklistItem` (`queries/task.sql`, `:execrows`): delete the
owner-joined row, returning the affected-row count.  Note: the query
only removes the row — surviving rows keep their sort positions. -/
def deleteChecklistItemQ (st : Store) (itemID : Nat) (owner : String) :
    Store × Nat :=
  let gone := st.checklist.filter (fun c =>
    c.id == itemID && (getTaskQ st c.taskID owner).isSome)
  let kept := st.checklist.filter (fun c =>
    !(c.id == itemID && (getTaskQ st c.taskID owner).isSome))
  ({ st with checklist := kept }, gone.length)

/-- The 0-based position of a value in the `unnest ... WITH ORDINALITY`
array (first occurrence). -/
def idxInList (x : Nat) : List Nat → Nat
  | [] => 0
  | y :: ys => if y == x then 0 else idxInList x ys + 1

/-- `ReorderChecklistItems` (`queries/task.sql`): one UPDATE joining
`unnest(item_ids) WITH ORDINALITY`; every row of the task whose id is
in the list gets `sort_order := 0-based position in the list`. -/
def reorderChecklistItemsQ (st : Store) (taskID : Nat) (owner : String)
    (itemIDs : List Nat) (now : Int) : Store :=
  if (getTaskQ st taskID owner).isSome then
    { st with checklist := st.checklist.map (fun c =>
      if c.taskID == taskID && itemIDs.contains c.id then
        { c with sortOrder := (idxInList c.id itemIDs : Int), updatedAt := now }
      else c) }
  else st

/-! ### Tag lifecycle (as consumed by the task service) -/

/-- Modelled from the spec: `TagRepository.GetOrCreate` — the postgres
implementation is not under `src/` (only the `tag/domain` interface
and its callers are); §4.4: atomic lookup by (name, owner), creating
the tag with that name/owner when absent. -/
def getOrCreate (st : Store) (name owner : String) : Store × TagRow :=
  match st.tags.find? (fun g => g.name == name && g.ownerID == owner) with
  | some g => (st, g)
  | none =>
    let g : TagRow := ⟨freshTagId st, name, owner⟩
    ({ st with tags := st.tags ++ [g] }, g)

/-- Modelled from the spec: `TagRepository.DeleteOrphans` — the
postgres implementation is not under `src/`; §4.4: delete every tag of
the owner referenced by zero tasks. -/
def deleteOrphans (st : Store) (owner : String) : Store :=
  { st with tags := st.tags.filter (fun g =>
      g.ownerID != owner || st.taskTags.any (fun p => p.2 == g.id)) }

/-- The tag-name resolution loop shared by `Service.CreateTask` and
`Service.UpdateTask`: one `tagRepo.GetOrCreate` per name, aborting on
the first error.  `resolveFail i` injects a database failure of the
`i`-th call; tags created by earlier iterations persist (no
transaction). -/
def resolveTagIDs (st : Store) (owner : String) (resolveFail : Nat → Bool)
    (i : Nat) : List String → Store × Option (List Nat)
  | [] => (st, some [])
  | n :: rest =>
    if resolveFail i then (st, none)
    else
      let p := getOrCreate st n owner
      match resolveTagIDs p.1 owner resolveFail (i + 1) rest with
      | (st', none) => (st', none)
      | (st', some ids) => (st', some (p.2.id :: ids))

/-! ### Task repository (`internal/task/infra/postgres`, `TaskRepository`) -/

/-- The `CreateTaskTag` loop inside `TaskRepository.Create`: one insert
per tag id, aborting on the first error; `assocFail i` injects a
database failure of the `i`-th insert.  Earlier inserts persist — the
repository runs on the bare pool, not in a transaction. -/
def createTagAssocs (st : Store) (taskID : Nat) (assocFail : Nat → Bool)
    (i : Nat) : List Nat → Store × Bool
  | [] => (st, true)
  | g :: rest =>
    if assocFail i then (st, false)
    else createTagAssocs (createTaskTagQ st taskID g) taskID assocFail (i + 1) rest

/-- `TaskRepository.Create`: insert the task row (which assigns the DB
id and timestamps back onto the task), then insert each tag
association.  The task's `Checklist` field is not persisted — no
checklist rows are inserted here.  `none` = some step failed. -/
def repoCreate (st : Store) (t : DomainTask) (assocFail : Nat → Bool)
    (now : Int) : Store × Option DomainTask :=
  let p := createTaskQ st t.title t.notes t.ownerID t.startDate now
  let t1 := { t with id := p.2.id, createdAt := p.2.createdAt,
                     updatedAt := p.2.updatedAt, archivedAt := p.2.archivedAt,
                     startDate := p.2.startDate }
  let q := createTagAssocs p.1 p.2.id assocFail 0 t.tagIDs
  if q.2 then (q.1, some t1) else (q.1, none)

/-- `TaskRepository.Get`: the owner's task row plus its tag ids and its
checklist items (via `ListChecklistItems`, already in sort order). -/
def repoGet (st : Store) (id : Nat) (owner : String) : Option DomainTask :=
  match getTaskQ st id owner with
  | none => none
  | some row =>
    some { id := row.id, title := row.title, notes := row.notes,
           tagIDs := getTaskTagIDsQ st row.id,
           checklist := listChecklistItemsQ st id owner,
           ownerID := row.ownerID, archivedAt := row.archivedAt,
           createdAt := row.createdAt, updatedAt := row.updatedAt,
           startDate := row.startDate }

/-- `TaskRepository.Update`: update the row, then replace the whole tag
association set (delete all, re-insert the task's tag ids). -/
def repoUpdate (st : Store) (t : DomainTask) (now : Int) :
    Store × Option Unit :=
  match updateTaskQ st t.id t.title t.notes t.ownerID t.startDate now with
  | (st1, none) => (st1, none)
  | (st1, some _) =>
    let st2 := deleteTaskTagsQ st1 t.id
    let st3 := t.tagIDs.foldl (fun s g => createTaskTagQ s t.id g) st2
    (st3, some ())

/-- `ORDER BY t.created_at DESC` of `ListTasks` as a relation. -/
def taskRowLe (a b : TaskRow) : Prop :=
  b.createdAt ≤ a.createdAt

instance : DecidableRel taskRowLe := fun a b => by
  unfold taskRowLe; infer_instance

instance : IsTotal TaskRow taskRowLe := by
  constructor
  intro a b
  unfold taskRowLe
  omega

instance : IsTrans TaskRow taskRowLe := by
  constructor
  intro a b c hab hbc
  unfold taskRowLe at *
  omega

/-- The archive-visibility disjunction of the `ListTasks` query, over
the two nullable boolean parameters (SQL three-valued logic:
`col = TRUE` is falsy when `col` is `NULL`). -/
def archivedPredQ (archivedOnly includeArchived : Option Bool)
    (archivedAt : Option Int) : Bool :=
  (archivedOnly == some true && archivedAt.isSome) ||
  (archivedOnly == some false &&
    (includeArchived == some true ||
      (includeArchived == some false && archivedAt.isNone))) ||
  (archivedOnly == none && includeArchived == none && archivedAt.isNone)

/-- The full `WHERE` clause of `ListTasks` for one task row: owner
scope, the optional tag filter (`tt.tag_id = ANY($filter)` over the
`LEFT JOIN`, which selects tasks having at least one association whose
tag is in the filter), and the archive-visibility disjunction. -/
def listTasksWhere (st : Store) (owner : String)
    (filterTagIDs : Option (List Nat))
    (includeArchived archivedOnly : Option Bool) (t : TaskRow) : Bool :=
  t.ownerID == owner &&
  (match filterTagIDs with
   | none => true
   | some l => st.taskTags.any (fun p => p.1 == t.id && l.contains p.2)) &&
  archivedPredQ archivedOnly includeArchived t.archivedAt

/-- `ListTasks` (`queries/task.sql`): filter (the `DISTINCT` of the
join collapses to a plain filter over task rows here), order by
`created_at DESC`, and apply `OFFSET`/`LIMIT`. -/
def listTasksQ (st : Store) (owner : String) (filterTagIDs : Option (List Nat))
    (includeArchived archivedOnly : Option Bool) (limit offset : Nat) :
    List TaskRow :=
  ((((st.tasks.filter
      (listTasksWhere st owner filterTagIDs includeArchived archivedOnly)
     ).insertionSort taskRowLe).drop offset).take limit)

/-- `TaskRepository.List`: pass the filter as SQL `NULL` when empty and
both archive flags as non-null booleans (`pgtype.Bool{Valid: true}`),
then build the domain tasks.  The `Checklist` field is never set — the
repository's `List` does not load checklist items. -/
def repoList (st : Store) (owner : String) (filterTagIDs : List Nat)
    (limit offset : Nat) (includeArchived archivedOnly : Bool) :
    List DomainTask :=
  let pgFilter : Option (List Nat) :=
    if filterTagIDs.length > 0 then some filterTagIDs else none
  (listTasksQ st owner pgFilter (some includeArchived) (some archivedOnly)
      limit offset).map (fun row =>
    { id := row.id, title := row.title, notes := row.notes,
      tagIDs := getTaskTagIDsQ st row.id, checklist := [],
      ownerID := row.ownerID, archivedAt := row.archivedAt,
      createdAt := row.createdAt, updatedAt := row.updatedAt,
      startDate := row.startDate })

/-! ### Task application service (`internal/task/application`, `Service`) -/

/-- The indexed seeding recursion behind `seedChecklist`. -/
def seedChecklistAux (i : Nat) : List String → List ChecklistItem
  | [] => []
  | c :: rest => ⟨0, 0, c, false, (i : Int), 0, 0⟩ :: seedChecklistAux (i + 1) rest

/-- `domain.ChecklistItem` seeding loop of `Service.CreateTask`: the
`i`-th argument becomes an item with `SortOrder = i`; ids, task id and
timestamps are Go zero values at this point (the repository assigns
them, or — for checklist rows — never persists them). -/
def seedChecklist (contents : List String) : List ChecklistItem :=
  seedChecklistAux 0 contents

/-- `Task.Update` (`internal/task/domain/task.go`). -/
def DomainTask.updateFields (t : DomainTask) (title notes : String)
    (tagIDs : List Nat) : DomainTask :=
  { t with title := title, notes := notes, tagIDs := tagIDs }

/-- `Task.SetStartDate` (`internal/task/domain/task.go`): nil date =
inbox. -/
def DomainTask.setStartDate (t : DomainTask) (d : Option Date) : DomainTask :=
  { t with startDate := d }

/-- `Service.CreateTask` (`internal/task/application/service.go`):
resolve each tag name through `GetOrCreate`, build the domain task
(`NewTask` + checklist seeding in argument order with sort positions
`0..n-1` + `SetStartDate`; a `none` date means inbox), then
`repo.Create`.  `resolveFail` / `assocFail` inject database failures
of the respective calls; `none` = the call returned an error. -/
def svcCreateTask (st : Store) (owner title notes : String)
    (tagNames : List String) (startDate : Option Date)
    (checklistItems : List String) (resolveFail assocFail : Nat → Bool)
    (now : Int) : Store × Option DomainTask :=
  match resolveTagIDs st owner resolveFail 0 tagNames with
  | (st1, none) => (st1, none)
  | (st1, some tagIDs) =>
    let task : DomainTask :=
      { id := 0, title := title, notes := notes, tagIDs := tagIDs,
        checklist := seedChecklist checklistItems, ownerID := owner,
        archivedAt := none, createdAt := 0, updatedAt := 0,
        startDate := startDate }
    repoCreate st1 task assocFail now

/-- `Service.UpdateTask` (`internal/task/application/service.go`): get
the owner's task, re-resolve the tag names, `Task.Update`, apply the
start-date change only when `startDateProvided`, persist through
`repo.Update`, then best-effort orphan-tag cleanup.  Collaborator
failures are not injected on this path (the claims about it concern
the successful update). -/
def svcUpdateTask (st : Store) (owner : String) (id : Nat)
    (title notes : String) (tagNames : List String)
    (startDateProvided : Bool) (startDate : Option Date) (now : Int) :
    Store × Option DomainTask :=
  match repoGet st id owner with
  | none => (st, none)
  | some task =>
    match resolveTagIDs st owner (fun _ => false) 0 tagNames with
    | (_, none) => (st, none)
    | (st1, some tagIDs) =>
      let t1 := task.updateFields title notes tagIDs
      let t2 := if startDateProvided then t1.setStartDate startDate else t1
      match repoUpdate st1 t2 now with
      | (st2, none) => (st2, none)
      | (st2, some _) =>
        (deleteOrphans st2 owner, some { t2 with updatedAt := now })

/-- `Service.ListTasks`: passes the caller identity and both archive
booleans through to `repo.List` via `domain.ListOptions`. -/
def svcListTasks (st : Store) (owner : String) (filterTagIDs : List Nat)
    (limit offset : Nat) (includeArchived archivedOnly : Bool) :
    List DomainTask :=
  repoList st owner filterTagIDs limit offset includeArchived archivedOnly

/-- `Service.AddChecklistItem`: delegates to the repository insert. -/
def svcAddChecklistItem (st : Store) (owner : String) (taskID : Nat)
    (content : String) (now : Int) : Store × Option ChecklistItem :=
  addChecklistItemQ st taskID owner content now

/-- `Service.UpdateChecklistItemContent`: delegates to the repository. -/
def svcUpdateChecklistItemContent (st : Store) (owner : String)
    (itemID : Nat) (content : String) (now : Int) :
    Store × Option ChecklistItem :=
  updateChecklistItemContentQ st itemID content owner now

/-- `Service.SetChecklistItemCompleted`: delegates to the repository. -/
def svcSetChecklistItemCompleted (st : Store) (owner : String)
    (itemID : Nat) (completed : Bool) (now : Int) :
    Store × Option ChecklistItem :=
  setChecklistItemCompletedQ st itemID completed owner now

/-- `Service.DeleteChecklistItem`: repository delete; zero affected
rows is turned into `pgx.ErrNoRows` (`false` here). -/
def svcDeleteChecklistItem (st : Store) (owner : String) (itemID : Nat) :
    Store × Bool :=
  let p := deleteChecklistItemQ st itemID owner
  (p.1, p.2 != 0)

/-- The id-set comparison of `Service.ReorderChecklistItems`: Go sorts
both id lists by uuid-string comparison and compares them; any fixed
total order gives the same equality test, so the model sorts `Nat` ids
ascending. -/
def sortIds (l : List Nat) : List Nat :=
  l.insertionSort (· ≤ ·)

/-- `Service.ReorderChecklistItems`
(`internal/task/application/service.go`): list the existing items,
fail with `domain.ErrInvalidChecklistOrder` (`none`) on a length
mismatch or when the sorted id lists differ, otherwise reorder through
the repository's single UPDATE and return the re-listed items. -/
def svcReorderChecklistItems (st : Store) (owner : String) (taskID : Nat)
    (itemIDs : List Nat) (now : Int) :
    Store × Option (List ChecklistItem) :=
  let existing := listChecklistItemsQ st taskID owner
  if existing.length ≠ itemIDs.length then (st, none)
  else if sortIds (existing.map (·.id)) ≠ sortIds itemIDs then (st, none)
  else
    let st' := reorderChecklistItemsQ st taskID owner itemIDs now
    (st', some (listChecklistItemsQ st' taskID owner))

/-! ### gRPC layer (`internal/task/infra/grpc/server.go`) -/

/-- `grpcerrors.ValidateNotEmpty`: `strings.TrimSpace(value) != ""`,
i.e. the value has at least one non-whitespace character. -/
def validateNotEmpty (value : String) : Bool :=
  !(value.toList.all (fun c => c = ' ' || c = '\t' || c = '\n' || c = '\r'))

/-- `grpcerrors.ValidateLength`: `len(value) <= maxLength` (Go `len`
counts UTF-8 bytes). -/
def validateLength (value : String) (maxLength : Nat) : Bool :=
  value.utf8ByteSize ≤ maxLength

/-- `grpcerrors.MaxTitleLength`. -/
def maxTitleLength : Nat := 500

/-- `grpcerrors.MaxNotesLength`. -/
def maxNotesLength : Nat := 50000

/-- `UpdateTaskRequest` as the task server sees it: `start_date` is an
`optional string` — `none` = field absent, `some ""` = supplied clear
signal, `some s` = supplied date text. -/
structure UpdateTaskRequest where
  id : Nat
  title : String
  notes : String
  tagNames : List String
  startDate : Option String
deriving Repr, DecidableEq

/-- gRPC-visible error outcomes of the modelled task handlers. -/
inductive GrpcError where
  | invalidArgument (msg : String)
  | failed
deriving Repr, DecidableEq

/-- `parseStartDateForUpdate` (`server.go`): nil or empty clears the
start date (inbox); otherwise the text must parse as `YYYY-MM-DD`. -/
def parseStartDateForUpdate (datePtr : Option String) :
    Except GrpcError (Option Date) :=
  match datePtr with
  | none => .ok none
  | some s =>
    if s = "" then .ok none
    else
      match parseGoDate s with
      | none => .error (.invalidArgument "invalid start_date format: expected YYYY-MM-DD")
      | some d => .ok (some d)

/-- `TaskServer.UpdateTask` (`server.go`): validate title/notes, then
derive the tri-state start-date arguments — `startDateProvided` is
true exactly when the request field is present, and only then is the
text parsed — and call the service. -/
def grpcUpdateTask (st : Store) (owner : String) (req : UpdateTaskRequest)
    (now : Int) : Store × Except GrpcError DomainTask :=
  if ¬ validateNotEmpty req.title then
    (st, .error (.invalidArgument "title cannot be empty"))
  else if ¬ validateLength req.title maxTitleLength then
    (st, .error (.invalidArgument "title exceeds maximum length"))
  else if ¬ validateLength req.notes maxNotesLength then
    (st, .error (.invalidArgument "notes exceeds maximum length"))
  else
    match req.startDate with
    | none =>
      match svcUpdateTask st owner req.id req.title req.notes req.tagNames
          false none now with
      | (st', none) => (st', .error .failed)
      | (st', some t) => (st', .ok t)
    | some s =>
      match parseStartDateForUpdate (some s) with
      | .error e => (st, .error e)
      | .ok d =>
        match svcUpdateTask st owner req.id req.title req.notes req.tagNames
            true d now with
        | (st', none) => (st', .error .failed)
        | (st', some t) => (st', .ok t)

/-- `TaskServer.ListTasks` archive flags: the optional request booleans
collapse to `flag != nil && *flag`. -/
def grpcArchiveFlag (flag : Option Bool) : Bool :=
  flag == some true

/-! ### Checklist operation sequences (for the ordering invariant) -/

/-- One service-level checklist operation, as exposed by the task
engine: add item, update content, set completed, delete item,
reorder. -/
inductive ChecklistOp where
  | add (taskID : Nat) (owner content : String) (now : Int)
  | updContent (itemID : Nat) (owner content : String) (now : Int)
  | setCompleted (itemID : Nat) (owner : String) (completed : Bool) (now : Int)
  | del (itemID : Nat) (owner : String)
  | reorder (taskID : Nat) (owner : String) (itemIDs : List Nat) (now : Int)
deriving Repr, DecidableEq

/-- The store reached by one checklist operation (errors leave the
store as the service left it). -/
def applyOp (st : Store) : ChecklistOp → Store
  | .add tid ow c now => (svcAddChecklistItem st ow tid c now).1
  | .updContent iid ow c now => (svcUpdateChecklistItemContent st ow iid c now).1
  | .setCompleted iid ow b now => (svcSetChecklistItemCompleted st ow iid b now).1
  | .del iid ow => (svcDeleteChecklistItem st ow iid).1
  | .reorder tid ow ids now => (svcReorderChecklistItems st ow tid ids now).1

/-- The store reached by a sequence of checklist operations. -/
def applyOps (st : Store) : List ChecklistOp → Store
  | [] => st
  | op :: ops => applyOps (applyOp st op) ops

/-- Store well-formedness for the checklist claims: checklist row ids
are unique (primary key), and no two rows of one task share a sort
position. -/
def WFChecklist (st : Store) : Prop :=
  (st.checklist.map (·.id)).Nodup ∧
  (st.checklist.map (fun c => (c.taskID, c.sortOrder))).Nodup

instance : DecidablePred WFChecklist := fun st => by
  unfold WFChecklist; infer_instance

/-- The claim's "contiguous gap-free ordering": the listed sort
positions are exactly `0..n-1`. -/
def contiguous (l : List Int) : Prop :=
  l = (List.range l.length).map Int.ofNat

instance : DecidablePred contiguous := fun l => by
  unfold contiguous; infer_instance

/-- The claim's three-mode archive selector: archived-only wins, then
include-archived admits everything, otherwise active only. -/
def archiveMode (ia ao : Bool) (archivedAt : Option Int) : Bool :=
  if ao then archivedAt.isSome
  else if ia then true
  else archivedAt.isNone

/-- The claim's tag-filter condition for one task row: no filter, or
some association of the task carries a filtered tag. -/
def tagFilterOk (st : Store) (filterTagIDs : List Nat) (t : TaskRow) : Prop :=
  filterTagIDs = [] ∨
    ∃ p ∈ st.taskTags, p.1 = t.id ∧ p.2 ∈ filterTagIDs

/-! ### Sample stores used by the concrete witnesses -/

/-- One task of user `u` with two checklist rows stored out of id
order. -/
def sampleTaskStore : Store :=
  ⟨[⟨1, "t", "n", "u", none, 0, 0, none⟩], [],
   [⟨5, 1, "x", false, 1, 0, 0⟩, ⟨6, 1, "y", false, 0, 1, 1⟩], []⟩

/-- Archive-mode sample: user `u` owns an active task and an archived
task; user `v` owns an active task. -/
def sampleListStore : Store :=
  ⟨[⟨1, "a", "", "u", none, 3, 0, none⟩,
    ⟨2, "b", "", "u", some 9, 2, 0, none⟩,
    ⟨3, "c", "", "v", none, 1, 0, none⟩], [], [], []⟩

/-- Tri-state sample: one task of user `u` scheduled on 2025-06-01. -/
def sampleDateStore : Store :=
  ⟨[⟨1, "t", "n", "u", none, 0, 0, some ⟨2025, 6, 1⟩⟩], [], [], []⟩

/-- One task of user `u` with an empty checklist. -/
def sampleEmptyTaskStore : Store :=
  ⟨[⟨1, "t", "n", "u", none, 0, 0, none⟩], [], [], []⟩

/-- The domain task returned by a fully successful
`CreateTask ∅ "u" "T" "" ["a", "b"] none ["x"]` at `now = 7`: the DB
assigns task id 1 and tag ids 1, 2; the seeded checklist item keeps
its Go zero-value id and timestamps. -/
def sampleCreatedTask : DomainTask :=
  { id := 1, title := "T", notes := "", tagIDs := [1, 2],
    checklist := [⟨0, 0, "x", false, 0, 0, 0⟩], ownerID := "u",
    archivedAt := none, createdAt := 7, updatedAt := 7,
    startDate := none }

end Task

/-! ## Theorems -/

/-! ### C6: credential verifier checks -/

/-- Helper: the parse stage succeeds exactly on an RSA-signed token
whose signature verifies under the known key named by its `kid` and
whose `exp`, when present, is in the future. -/
theorem JWT.parseWithClaims_isOk (v : JWT.JWTValidator) (t : JWT.Token)
    (now : Int) :
    (JWT.parseWithClaims v t now).isOk =
      (t.algRSA && JWT.sigVerifies v t && JWT.expOk t now) := by
  unfold JWT.parseWithClaims JWT.keyfunc JWT.sigVerifies JWT.expOk
  cases halg : t.algRSA with
  | false => simp [Except.isOk, Except.toBool]
  | true =>
    cases hk : t.kid with
    | none => simp [Except.isOk, Except.toBool]
    | some kid =>
      cases hfind : v.keys.find? (fun p => p.1 == kid) with
      | none => simp [hfind, Except.isOk, Except.toBool]
      | some pr =>
        by_cases hsig : t.sigKey = pr.2
        · cases hexp : t.claims.expiresAt with
          | none => simp [hfind, hexp, hsig, Except.isOk, Except.toBool]
          | some e =>
            by_cases hle : e ≤ now
            · have hnlt : ¬ now < e := by omega
              simp [hfind, hexp, hsig, hle, hnlt, Except.isOk, Except.toBool]
            · have hlt : now < e := by omega
              simp [hfind, hexp, hsig, hle, hlt, Except.isOk, Except.toBool]
        · simp [hfind, hsig, Except.isOk, Except.toBool]

/-- Helper: the parse stage only ever returns the token's own claims. -/
theorem JWT.parseWithClaims_ok_val {v : JWT.JWTValidator} {t : JWT.Token}
    {now : Int} {c : JWT.Claims}
    (h : JWT.parseWithClaims v t now = .ok c) : c = t.claims := by
  unfold JWT.parseWithClaims JWT.keyfunc at h
  split at h
  · cases h
  · split at h
    · cases h
    · split at h
      · split at h
        · cases h
        · exact (Except.ok.inj h).symm
      · exact (Except.ok.inj h).symm

/-- C6: `ValidateToken` succeeds exactly when the signature verifies
under the public key whose identifier matches the token header's key
id, the declared type claim equals `"access"`, the issuer claim equals
the configured issuer, and the expiration claim (when present) is in
the future; a well-signed non-`"access"` token fails with
`ErrInvalidTokenType`, a well-signed access token with the wrong
issuer fails with `ErrInvalidIssuer`, a past expiration always fails,
and an unknown header key id always fails. -/
theorem C6_validateToken_checks (v : JWT.JWTValidator) (t : JWT.Token)
    (now : Int) :
    ((JWT.validateToken v t now).isOk =
      ((t.algRSA && JWT.sigVerifies v t && JWT.expOk t now) &&
       (t.claims.typ == "access") &&
       (t.claims.issuer == v.expectedIssuer))) ∧
    (∀ c, JWT.parseWithClaims v t now = .ok c → c.typ ≠ "access" →
      JWT.validateToken v t now = .error .invalidTokenType) ∧
    (∀ c, JWT.parseWithClaims v t now = .ok c → c.typ = "access" →
      c.issuer ≠ v.expectedIssuer →
      JWT.validateToken v t now = .error .invalidIssuer) ∧
    (∀ e, t.claims.expiresAt = some e → e ≤ now →
      (JWT.validateToken v t now).isOk = false) ∧
    (∀ kid, t.algRSA = true → t.kid = some kid →
      v.keys.find? (fun p => p.1 == kid) = none →
      JWT.validateToken v t now = .error (.invalidToken .unknownKid)) := by
  have hparse := JWT.parseWithClaims_isOk v t now
  have hmain : (JWT.validateToken v t now).isOk =
      ((t.algRSA && JWT.sigVerifies v t && JWT.expOk t now) &&
       (t.claims.typ == "access") &&
       (t.claims.issuer == v.expectedIssuer)) := by
    unfold JWT.validateToken
    cases hp : JWT.parseWithClaims v t now with
    | error e =>
      rw [hp] at hparse
      have hX : (t.algRSA && JWT.sigVerifies v t && JWT.expOk t now) = false := by
        rw [← hparse]
        rfl
      simp [hX, Except.isOk, Except.toBool]
    | ok c =>
      have hc := JWT.parseWithClaims_ok_val hp
      subst hc
      rw [hp] at hparse
      have hX : (t.algRSA && JWT.sigVerifies v t && JWT.expOk t now) = true := by
        rw [← hparse]
        rfl
      rw [hX]
      by_cases hty : t.claims.typ = "access"
      · by_cases hiss : t.claims.issuer = v.expectedIssuer
        · cases hexp : t.claims.expiresAt with
          | none =>
            simp [hty, hiss, hexp, Except.isOk, Except.toBool]
          | some e =>
            by_cases hlt : e < now
            · have hfalse : JWT.expOk t now = false := by
                unfold JWT.expOk
                rw [hexp]
                simp
                omega
              rw [hfalse] at hX
              simp at hX
            · simp [hty, hiss, hexp, hlt, Except.isOk, Except.toBool]
        · simp [hty, hiss, Except.isOk, Except.toBool]
      · simp [hty, Except.isOk, Except.toBool]
  refine ⟨hmain, ?_, ?_, ?_, ?_⟩
  · intro c hp hty
    unfold JWT.validateToken
    rw [hp]
    simp [hty]
  · intro c hp hty hiss
    unfold JWT.validateToken
    rw [hp]
    simp [hty, hiss]
  · intro e hexp hle
    rw [hmain]
    have : JWT.expOk t now = false := by
      unfold JWT.expOk
      rw [hexp]
      simp
      omega
    simp [this]
  · intro kid halg hkid hfind
    have hperr : JWT.parseWithClaims v t now = .error .unknownKid := by
      unfold JWT.parseWithClaims JWT.keyfunc
      rw [halg, hkid]
      simp [hfind]
    unfold JWT.validateToken
    rw [hperr]

/-- C6 witness: the characterization evaluated on concrete tokens — a
valid access token, a refresh token, a wrong-issuer token, an expired
token and an unknown-kid token. -/
theorem C6_validateToken_checks_witness :
    (JWT.validateToken ⟨"iss", [("k1", "pk1")]⟩
      ⟨true, some "k1", ⟨"iss", "sub", some 100, "access", "u1"⟩, "pk1"⟩
      50).isOk = true ∧
    JWT.validateToken ⟨"iss", [("k1", "pk1")]⟩
      ⟨true, some "k1", ⟨"iss", "sub", some 100, "refresh", "u1"⟩, "pk1"⟩
      50 = .error .invalidTokenType ∧
    JWT.validateToken ⟨"iss", [("k1", "pk1")]⟩
      ⟨true, some "k1", ⟨"evil", "sub", some 100, "access", "u1"⟩, "pk1"⟩
      50 = .error .invalidIssuer ∧
    (JWT.validateToken ⟨"iss", [("k1", "pk1")]⟩
      ⟨true, some "k1", ⟨"iss", "sub", some 10, "access", "u1"⟩, "pk1"⟩
      50).isOk = false ∧
    JWT.validateToken ⟨"iss", [("k1", "pk1")]⟩
      ⟨true, some "kX", ⟨"iss", "sub", some 100, "access", "u1"⟩, "pk1"⟩
      50 = .error (.invalidToken .unknownKid) := by
  refine ⟨?_, ?_, ?_, ?_, ?_⟩
  · rw [(C6_validateToken_checks ⟨"iss", [("k1", "pk1")]⟩
      ⟨true, some "k1", ⟨"iss", "sub", some 100, "access", "u1"⟩, "pk1"⟩ 50).1]
    decide
  · exact (C6_validateToken_checks ⟨"iss", [("k1", "pk1")]⟩
      ⟨true, some "k1", ⟨"iss", "sub", some 100, "refresh", "u1"⟩, "pk1"⟩
      50).2.1 ⟨"iss", "sub", some 100, "refresh", "u1"⟩ rfl (by decide)
  · exact (C6_validateToken_checks ⟨"iss", [("k1", "pk1")]⟩
      ⟨true, some "k1", ⟨"evil", "sub", some 100, "access", "u1"⟩, "pk1"⟩
      50).2.2.1 ⟨"evil", "sub", some 100, "access", "u1"⟩ rfl rfl (by decide)
  · exact (C6_validateToken_checks ⟨"iss", [("k1", "pk1")]⟩
      ⟨true, some "k1", ⟨"iss", "sub", some 10, "access", "u1"⟩, "pk1"⟩
      50).2.2.2.1 10 rfl (by decide)
  · exact (C6_validateToken_checks ⟨"iss", [("k1", "pk1")]⟩
      ⟨true, some "kX", ⟨"iss", "sub", some 100, "access", "u1"⟩, "pk1"⟩
      50).2.2.2.2 "kX" rfl rfl (by decide)

/-! ### C1: authentication interceptor allowlist -/

/-- C1: operations on the fixed public allowlist pass straight to the
handler — with no metadata, header or validator consulted — while for
any other operation the handler only runs after a credential resolved
through one of the two schemes, and a missing credential is rejected;
allowlist membership is exact operation-name matching of the three
auth-service methods. -/
theorem C1_interceptor_allowlist
    (jwtValidate : String → Except JWT.ValidateError JWT.Claims)
    (mcpValidate : Nat → Except MCP.ValidateError String)
    (uuidParse : String → Option Nat)
    (md : Option Interceptor.Metadata) (fullMethod : String) :
    (Interceptor.isAuthServicePublicMethod fullMethod = true →
      Interceptor.interceptWithMCP jwtValidate mcpValidate uuidParse md
        fullMethod = .handled none) ∧
    (Interceptor.isAuthServicePublicMethod fullMethod = false → md = none →
      Interceptor.interceptWithMCP jwtValidate mcpValidate uuidParse md
        fullMethod = .unauthenticated "missing metadata") ∧
    (Interceptor.isAuthServicePublicMethod fullMethod = false →
      ∀ o, Interceptor.interceptWithMCP jwtValidate mcpValidate uuidParse md
          fullMethod = .handled o →
        ∃ m hd u, md = some m ∧ m.authorization.head? = some hd ∧
          o = some u ∧
          Interceptor.credentialValidated jwtValidate mcpValidate uuidParse
            hd u) ∧
    (Interceptor.isAuthServicePublicMethod fullMethod = true ↔
      (fullMethod = "/auth.v1.AuthService/GetAuthorizationURL" ∨
       fullMethod = "/auth.v1.AuthService/HandleCallback" ∨
       fullMethod = "/auth.v1.AuthService/RefreshToken")) := by
  refine ⟨?_, ?_, ?_, ?_⟩
  · intro hpub
    unfold Interceptor.interceptWithMCP
    rw [hpub]
    simp
  · intro hpub hmd
    subst hmd
    unfold Interceptor.interceptWithMCP
    rw [hpub]
    simp
  · intro hpub o h
    unfold Interceptor.interceptWithMCP at h
    rw [hpub] at h
    simp only [Bool.false_eq_true, if_false] at h
    cases md with
    | none => cases h
    | some m =>
      dsimp only at h
      cases hauth : m.authorization with
      | nil =>
        rw [hauth] at h
        cases h
      | cons hd tl =>
        rw [hauth] at h
        dsimp only at h
        refine ⟨m, hd, ?_⟩
        by_cases hb : Interceptor.hasPrefixGo hd "Bearer " = true
        · rw [if_pos hb] at h
          cases hebt : Interceptor.extractBearerToken hd with
          | error e =>
            rw [hebt] at h
            cases h
          | ok ts =>
            rw [hebt] at h
            dsimp only at h
            cases hjv : jwtValidate ts with
            | error e =>
              rw [hjv] at h
              cases h
            | ok c =>
              rw [hjv] at h
              dsimp only at h
              cases heu : JWT.extractUserID c with
              | error e =>
                rw [heu] at h
                cases h
              | ok u =>
                rw [heu] at h
                dsimp only at h
                refine ⟨u, rfl, by simp [hauth], ?_, ?_⟩
                · exact (Interceptor.Outcome.handled.inj h).symm
                · exact Or.inl ⟨ts, c, hebt, hjv, heu⟩
        · rw [if_neg hb] at h
          by_cases hm2 : Interceptor.hasPrefixGo hd "MCP-Token " = true
          · rw [if_pos hm2] at h
            cases hemt : Interceptor.extractMCPToken uuidParse hd with
            | error e =>
              rw [hemt] at h
              cases h
            | ok tok =>
              rw [hemt] at h
              dsimp only at h
              cases hmv : mcpValidate tok with
              | error e =>
                rw [hmv] at h
                cases h
              | ok u =>
                rw [hmv] at h
                dsimp only at h
                refine ⟨u, rfl, by simp [hauth], ?_, ?_⟩
                · exact (Interceptor.Outcome.handled.inj h).symm
                · exact Or.inr ⟨tok, hemt, hmv⟩
          · rw [if_neg hm2] at h
            cases h
  · unfold Interceptor.isAuthServicePublicMethod
    simp [or_assoc]

/-- C1 witness: a public method passes with no metadata at all; a
non-public method with no metadata is rejected; a non-public method
with a bearer credential runs the handler only because the credential
validated. -/
theorem C1_interceptor_allowlist_witness :
    Interceptor.interceptWithMCP (fun _ => .error .invalidTokenType)
      (fun _ => .error .notFound) (fun _ => none) none
      "/auth.v1.AuthService/GetAuthorizationURL" = .handled none ∧
    Interceptor.interceptWithMCP (fun _ => .error .invalidTokenType)
      (fun _ => .error .notFound) (fun _ => none) none
      "/auth.v1.AuthService/GetUserProfile" =
      .unauthenticated "missing metadata" ∧
    (∃ m hd u, (some ⟨["Bearer tok"]⟩ : Option Interceptor.Metadata) = some m ∧
      m.authorization.head? = some hd ∧ (some "u7" : Option String) = some u ∧
      Interceptor.credentialValidated
        (fun _ => .ok ⟨"iss", "sub", none, "access", "u7"⟩)
        (fun _ => .error .notFound) (fun _ => none) hd u) ∧
    (Interceptor.isAuthServicePublicMethod
      "/auth.v1.AuthService/RefreshToken" = true) ∧
    (Interceptor.isAuthServicePublicMethod
      "/task.v1.TaskService/CreateTask" = false) := by
  refine ⟨?_, ?_, ?_, ?_, ?_⟩
  · exact (C1_interceptor_allowlist (fun _ => .error .invalidTokenType)
      (fun _ => .error .notFound) (fun _ => none) none
      "/auth.v1.AuthService/GetAuthorizationURL").1 (by decide)
  · exact (C1_interceptor_allowlist (fun _ => .error .invalidTokenType)
      (fun _ => .error .notFound) (fun _ => none) none
      "/auth.v1.AuthService/GetUserProfile").2.1 (by decide) rfl
  · exact (C1_interceptor_allowlist
      (fun _ => .ok ⟨"iss", "sub", none, "access", "u7"⟩)
      (fun _ => .error .notFound) (fun _ => none) (some ⟨["Bearer tok"]⟩)
      "/task.v1.TaskService/CreateTask").2.2.1 (by decide) (some "u7") rfl
  · exact ((C1_interceptor_allowlist (fun _ => .error .invalidTokenType)
      (fun _ => .error .notFound) (fun _ => none) none
      "/auth.v1.AuthService/RefreshToken").2.2.2).mpr (Or.inr (Or.inr rfl))
  · have h := (C1_interceptor_allowlist (fun _ => .error .invalidTokenType)
      (fun _ => .error .notFound) (fun _ => none) none
      "/task.v1.TaskService/CreateTask").2.2.2
    by_contra hc
    simp only [Bool.not_eq_false] at hc
    rcases h.mp hc with h1 | h1 | h1 <;> simp at h1

/-! ### C7: API-token validation -/

/-- C7: `validate(tokenValue)` returns the owning user identifier
exactly when the matching record is both active and unexpired; no
matching record gives `NotFound`, a revoked record gives the
"inactive" error, and an active-but-expired record gives the
"expired" error — two independent conditions yielding distinct
errors. -/
theorem C7_mcp_validateToken (store : List MCP.MCPToken) (tok : Nat)
    (now : Int) :
    (MCP.getByToken store tok = none →
      MCP.validateToken store tok now = .error .notFound) ∧
    (∀ t, MCP.getByToken store tok = some t →
      (MCP.validateToken store tok now = .ok t.userID ↔
        (t.isActive = true ∧ MCP.IsExpired t now = false))) ∧
    (∀ t, MCP.getByToken store tok = some t → t.isActive = false →
      MCP.validateToken store tok now = .error .inactive) ∧
    (∀ t, MCP.getByToken store tok = some t → t.isActive = true →
      MCP.IsExpired t now = true →
      MCP.validateToken store tok now = .error .expired) := by
  refine ⟨?_, ?_, ?_, ?_⟩
  · intro h
    unfold MCP.validateToken
    rw [h]
  · intro t h
    unfold MCP.validateToken MCP.IsValid
    rw [h]
    cases hact : t.isActive with
    | false => simp [hact]
    | true =>
      cases hexp : MCP.IsExpired t now with
      | false => simp [hact, hexp]
      | true => simp [hact, hexp]
  · intro t h hact
    unfold MCP.validateToken MCP.IsValid
    rw [h]
    simp [hact]
  · intro t h hact hexp
    unfold MCP.validateToken MCP.IsValid
    rw [h]
    simp [hact, hexp]

/-- C7 witness: a store holding a live token, a revoked token and an
expired token, probed at time 50 with each token value and with an
unknown value. -/
theorem C7_mcp_validateToken_witness :
    MCP.validateToken
      [⟨1, 11, "alice", "live", 0, some 100, none, true⟩,
       ⟨2, 22, "bob", "revoked", 0, some 100, none, false⟩,
       ⟨3, 33, "carol", "expired", 0, some 10, none, true⟩] 11 50 =
      .ok "alice" ∧
    MCP.validateToken
      [⟨1, 11, "alice", "live", 0, some 100, none, true⟩,
       ⟨2, 22, "bob", "revoked", 0, some 100, none, false⟩,
       ⟨3, 33, "carol", "expired", 0, some 10, none, true⟩] 22 50 =
      .error .inactive ∧
    MCP.validateToken
      [⟨1, 11, "alice", "live", 0, some 100, none, true⟩,
       ⟨2, 22, "bob", "revoked", 0, some 100, none, false⟩,
       ⟨3, 33, "carol", "expired", 0, some 10, none, true⟩] 33 50 =
      .error .expired ∧
    MCP.validateToken
      [⟨1, 11, "alice", "live", 0, some 100, none, true⟩,
       ⟨2, 22, "bob", "revoked", 0, some 100, none, false⟩,
       ⟨3, 33, "carol", "expired", 0, some 10, none, true⟩] 44 50 =
      .error .notFound := by
  refine ⟨?_, ?_, ?_, ?_⟩
  · exact ((C7_mcp_validateToken
      [⟨1, 11, "alice", "live", 0, some 100, none, true⟩,
       ⟨2, 22, "bob", "revoked", 0, some 100, none, false⟩,
       ⟨3, 33, "carol", "expired", 0, some 10, none, true⟩] 11 50).2.1
      ⟨1, 11, "alice", "live", 0, some 100, none, true⟩ (by decide)).mpr
      (by decide)
  · exact (C7_mcp_validateToken
      [⟨1, 11, "alice", "live", 0, some 100, none, true⟩,
       ⟨2, 22, "bob", "revoked", 0, some 100, none, false⟩,
       ⟨3, 33, "carol", "expired", 0, some 10, none, true⟩] 22 50).2.2.1
      ⟨2, 22, "bob", "revoked", 0, some 100, none, false⟩ (by decide) rfl
  · exact (C7_mcp_validateToken
      [⟨1, 11, "alice", "live", 0, some 100, none, true⟩,
       ⟨2, 22, "bob", "revoked", 0, some 100, none, false⟩,
       ⟨3, 33, "carol", "expired", 0, some 10, none, true⟩] 33 50).2.2.2
      ⟨3, 33, "carol", "expired", 0, some 10, none, true⟩ (by decide) rfl
      (by decide)
  · exact (C7_mcp_validateToken
      [⟨1, 11, "alice", "live", 0, some 100, none, true⟩,
       ⟨2, 22, "bob", "revoked", 0, some 100, none, false⟩,
       ⟨3, 33, "carol", "expired", 0, some 10, none, true⟩] 44 50).1
      (by decide)

/-! ### C9: token secret exposure -/

/-- C9: contrary to the claim (and to the repository's own
documentation, which says the token value "cannot be retrieved again
later"), the shared `toProto` conversion copies the secret token value
into every response: `GetMCPToken` and `ListMCPTokens` both return
it. -/
theorem C9_token_secret_in_get_and_list :
    MCP.grpcGetMCPToken [⟨1, 42, "alice", "n", 0, none, none, true⟩]
      "alice" 1 = .ok ⟨1, 42, "n", 0, true, none, none⟩ ∧
    (MCP.grpcListMCPTokens [⟨1, 42, "alice", "n", 0, none, none, true⟩]
      "alice").map (·.token) = [42] ∧
    (∀ t, (MCP.toProto t).token = t.token) := by
  exact ⟨rfl, by decide, fun t => rfl⟩

/-! ### C10: checklist visibility in List vs Get -/

/-- C10: every task the repository's `List` returns has an empty
checklist (`List` never loads checklist rows), whereas `Get` returns
the task with its checklist populated as the sorted checklist listing
(ordered by sort position). -/
theorem C10_list_skips_checklist_get_loads_it (st : Task.Store)
    (owner : String) (filterTagIDs : List Nat) (limit offset : Nat)
    (ia ao : Bool) :
    (∀ t ∈ Task.repoList st owner filterTagIDs limit offset ia ao,
      t.checklist = []) ∧
    (∀ id t, Task.repoGet st id owner = some t →
      t.checklist = Task.listChecklistItemsQ st id owner) ∧
    (∀ id, List.Sorted Task.ciKeyLe (Task.listChecklistItemsQ st id owner)) := by
  refine ⟨?_, ?_, ?_⟩
  · intro t ht
    unfold Task.repoList at ht
    simp only [List.mem_map] at ht
    obtain ⟨row, -, rfl⟩ := ht
    rfl
  · intro id t h
    unfold Task.repoGet at h
    cases hg : Task.getTaskQ st id owner <;> rw [hg] at h
    · cases h
    · cases h
      rfl
  · intro id
    unfold Task.listChecklistItemsQ
    split
    · exact List.sorted_insertionSort Task.ciKeyLe _
    · exact List.sorted_nil

/-- C10 witness: on the sample store, `List` returns the task with an
empty checklist while `Get` on the same task shows both items in sort
order. -/
theorem C10_list_skips_checklist_get_loads_it_witness :
    ((Task.repoList Task.sampleTaskStore "u" [] 30 0 false false).map
      (·.checklist) = [[]]) ∧
    (∃ t, Task.repoGet Task.sampleTaskStore 1 "u" = some t ∧
      t.checklist = Task.listChecklistItemsQ Task.sampleTaskStore 1 "u" ∧
      t.checklist.map (fun c => (c.id, c.sortOrder)) = [(6, 0), (5, 1)]) := by
  constructor
  · have h := (C10_list_skips_checklist_get_loads_it Task.sampleTaskStore
      "u" [] 30 0 false false).1
    have hmem : ∀ t ∈ Task.repoList Task.sampleTaskStore "u" [] 30 0 false false,
        t.checklist = [] := h
    decide
  · refine ⟨⟨1, "t", "n", [], [⟨6, 1, "y", false, 0, 1, 1⟩,
      ⟨5, 1, "x", false, 1, 0, 0⟩], "u", none, 0, 0, none⟩, by decide, ?_, by decide⟩
    exact (C10_list_skips_checklist_get_loads_it Task.sampleTaskStore
      "u" [] 30 0 false false).2.1 1 _ (by decide)

/-! ### C8: archive visibility tri-state -/

/-- C8: with both flags passed as non-null booleans (as the repository
always does), the `ListTasks` WHERE clause collapses to the tri-state
selector — `archivedOnly` wins outright (returning exactly the
archived tasks), otherwise `includeArchived` admits everything,
otherwise only active tasks — always owner-scoped, never an arbitrary
subset. -/
theorem C8_listTasks_archive_modes (st : Task.Store) (owner : String)
    (filterTagIDs : List Nat) (limit offset : Nat) (ia ao : Bool) :
    (∀ aAt : Option Int,
      Task.archivedPredQ (some ao) (some ia) aAt = Task.archiveMode ia ao aAt) ∧
    (∀ t ∈ Task.repoList st owner filterTagIDs limit offset ia ao,
      t.ownerID = owner ∧ Task.archiveMode ia ao t.archivedAt = true) ∧
    (∀ row, (row ∈ st.tasks.filter
        (Task.listTasksWhere st owner
          (if filterTagIDs.length > 0 then some filterTagIDs else none)
          (some ia) (some ao)) ↔
      row ∈ st.tasks ∧ row.ownerID = owner ∧
        Task.tagFilterOk st filterTagIDs row ∧
        Task.archiveMode ia ao row.archivedAt = true)) := by
  have hpred : ∀ aAt : Option Int,
      Task.archivedPredQ (some ao) (some ia) aAt = Task.archiveMode ia ao aAt := by
    intro aAt
    cases ia <;> cases ao <;> cases aAt <;> rfl
  have hwhere : ∀ row : Task.TaskRow,
      (Task.listTasksWhere st owner
        (if filterTagIDs.length > 0 then some filterTagIDs else none)
        (some ia) (some ao) row = true) ↔
      (row.ownerID = owner ∧ Task.tagFilterOk st filterTagIDs row ∧
        Task.archiveMode ia ao row.archivedAt = true) := by
    intro row
    unfold Task.listTasksWhere Task.tagFilterOk
    rw [hpred]
    cases hf : filterTagIDs with
    | nil =>
      simp [List.any_eq_true, Prod.exists]
    | cons a as =>
      simp only [List.length_cons, Nat.succ_pos, if_pos, Bool.and_eq_true,
        beq_iff_eq, List.any_eq_true, decide_eq_true_eq]
      constructor
      · rintro ⟨⟨how, p, hp, hpid, hptag⟩, harch⟩
        refine ⟨how, Or.inr ⟨p, hp, by simpa using hpid, by simpa using hptag⟩, harch⟩
      · rintro ⟨how, hor, harch⟩
        rcases hor with h0 | ⟨p, hp, hpid, hptag⟩
        · cases h0
        · exact ⟨⟨how, p, hp, by simpa using hpid, by simpa using hptag⟩, harch⟩
  refine ⟨hpred, ?_, ?_⟩
  · intro t ht
    unfold Task.repoList at ht
    simp only [List.mem_map] at ht
    obtain ⟨row, hrow, rfl⟩ := ht
    unfold Task.listTasksQ at hrow
    have hrow2 := List.mem_of_mem_take hrow
    have hrow3 := List.mem_of_mem_drop hrow2
    have hrow4 := (List.perm_insertionSort Task.taskRowLe _).mem_iff.mp hrow3
    rw [List.mem_filter] at hrow4
    have := (hwhere row).mp hrow4.2
    exact ⟨this.1, this.2.2⟩
  · intro row
    rw [List.mem_filter]
    constructor
    · rintro ⟨hmem, hw⟩
      exact ⟨hmem, (hwhere row).mp hw⟩
    · rintro ⟨hmem, h1, h2, h3⟩
      exact ⟨hmem, (hwhere row).mpr ⟨h1, h2, h3⟩⟩

/-- C8 witness: the sample store probed in all four flag combinations
— active-only by default, everything with include-archived, archived
only with archived-only, and archived-only precedence when both flags
are set. -/
theorem C8_listTasks_archive_modes_witness :
    ((Task.repoList Task.sampleListStore "u" [] 30 0 false false).map (·.id)
      = [1]) ∧
    ((Task.repoList Task.sampleListStore "u" [] 30 0 true false).map (·.id)
      = [1, 2]) ∧
    ((Task.repoList Task.sampleListStore "u" [] 30 0 false true).map (·.id)
      = [2]) ∧
    ((Task.repoList Task.sampleListStore "u" [] 30 0 true true).map (·.id)
      = [2]) ∧
    (⟨2, "b", "", "u", some 9, 2, 0, none⟩ ∈ Task.sampleListStore.tasks ∧
      Task.TaskRow.ownerID ⟨2, "b", "", "u", some 9, 2, 0, none⟩ = "u" ∧
      Task.tagFilterOk Task.sampleListStore [] ⟨2, "b", "", "u", some 9, 2, 0, none⟩ ∧
      Task.archiveMode true true (some 9) = true) := by
  refine ⟨by decide, by decide, by decide, by decide, ?_⟩
  exact ((C8_listTasks_archive_modes Task.sampleListStore "u" [] 30 0
    true true).2.2 ⟨2, "b", "", "u", some 9, 2, 0, none⟩).mp (by decide)

/-! ### C2: tri-state start-date handling -/

/-- Helper: `find?` on a cons whose head satisfies the predicate. -/
theorem find?_cons_pos {α : Type _} (p : α → Bool) (a : α) (l : List α)
    (h : p a = true) : (a :: l).find? p = some a := by
  conv_lhs => unfold List.find?
  rw [h]

/-- Helper: `find?` on a cons whose head fails the predicate. -/
theorem find?_cons_neg {α : Type _} (p : α → Bool) (a : α) (l : List α)
    (h : p a = false) : (a :: l).find? p = l.find? p := by
  conv_lhs => unfold List.find?
  rw [h]

/-- Helper: `GetOrCreate` touches only the tag table. -/
theorem Task.getOrCreate_preserves (st : Task.Store) (name owner : String) :
    (Task.getOrCreate st name owner).1.tasks = st.tasks ∧
    (Task.getOrCreate st name owner).1.taskTags = st.taskTags ∧
    (Task.getOrCreate st name owner).1.checklist = st.checklist := by
  unfold Task.getOrCreate
  split <;> exact ⟨rfl, rfl, rfl⟩

/-- Helper: tag-name resolution touches only the tag table. -/
theorem Task.resolveTagIDs_preserves (owner : String) (rf : Nat → Bool)
    (names : List String) : ∀ (st : Task.Store) (i : Nat),
    (Task.resolveTagIDs st owner rf i names).1.tasks = st.tasks ∧
    (Task.resolveTagIDs st owner rf i names).1.taskTags = st.taskTags ∧
    (Task.resolveTagIDs st owner rf i names).1.checklist = st.checklist := by
  induction names with
  | nil => intro st i; exact ⟨rfl, rfl, rfl⟩
  | cons n rest ih =>
    intro st i
    unfold Task.resolveTagIDs
    by_cases hrf : rf i
    · rw [if_pos hrf]
      exact ⟨rfl, rfl, rfl⟩
    · rw [if_neg hrf]
      dsimp only
      obtain ⟨h1, h2, h3⟩ := Task.getOrCreate_preserves st n owner
      obtain ⟨g1, g2, g3⟩ := ih (Task.getOrCreate st n owner).1 (i + 1)
      rcases hres : Task.resolveTagIDs (Task.getOrCreate st n owner).1 owner rf
        (i + 1) rest with ⟨st', ids?⟩
      rw [hres] at g1 g2 g3
      cases ids? <;>
        exact ⟨g1.trans h1, g2.trans h2, g3.trans h3⟩

/-- Helper: with no injected failure, tag resolution always succeeds. -/
theorem Task.resolveTagIDs_noFail (owner : String) (names : List String) :
    ∀ (st : Task.Store) (i : Nat),
    ∃ ids, (Task.resolveTagIDs st owner (fun _ => false) i names).2 = some ids := by
  induction names with
  | nil => intro st i; exact ⟨[], rfl⟩
  | cons n rest ih =>
    intro st i
    unfold Task.resolveTagIDs
    rw [if_neg (by simp)]
    dsimp only
    obtain ⟨ids, hids⟩ := ih (Task.getOrCreate st n owner).1 (i + 1)
    rcases hres : Task.resolveTagIDs (Task.getOrCreate st n owner).1 owner
      (fun _ => false) (i + 1) rest with ⟨st', ids?⟩
    rw [hres] at hids
    cases ids? with
    | none => cases hids
    | some l => exact ⟨_, rfl⟩

/-- Helper: an owner-scoped update rewrites exactly the found row, and
the rewritten row is found afterwards. -/
theorem Task.find?_map_update (upd : Task.TaskRow → Task.TaskRow)
    (hid : ∀ t, (upd t).id = t.id) (hown : ∀ t, (upd t).ownerID = t.ownerID)
    (id : Nat) (owner : String) :
    ∀ (l : List Task.TaskRow) (row : Task.TaskRow),
    l.find? (fun t => t.id == id && t.ownerID == owner) = some row →
    (l.map (fun t =>
        if t.id == id && t.ownerID == owner then upd t else t)).find?
      (fun t => t.id == id && t.ownerID == owner) = some (upd row) := by
  intro l
  induction l with
  | nil =>
    intro row h
    cases h
  | cons t ts ih =>
    intro row h
    by_cases hq : (t.id == id && t.ownerID == owner) = true
    · rw [find?_cons_pos (fun t => t.id == id && t.ownerID == owner) t ts hq] at h
      cases h
      simp only [List.map_cons, if_pos hq]
      rw [find?_cons_pos]
      rw [hid t, hown t]
      exact hq
    · have hq' : (t.id == id && t.ownerID == owner) = false := by
        simpa using hq
      rw [find?_cons_neg (fun t => t.id == id && t.ownerID == owner) t ts hq'] at h
      simp only [List.map_cons, if_neg hq]
      rw [find?_cons_neg (fun t => t.id == id && t.ownerID == owner) t _ hq']
      exact ih row h

/-- Helper: `UpdateTask` (the SQL) returns and stores the found row
with the new title, notes, `updated_at` and `start_date`. -/
theorem Task.updateTaskQ_get (st : Task.Store) (id : Nat)
    (title notes owner : String) (d : Option Task.Date) (now : Int)
    (row : Task.TaskRow) (h : Task.getTaskQ st id owner = some row) :
    Task.getTaskQ (Task.updateTaskQ st id title notes owner d now).1 id owner =
      some { row with title := title, notes := notes, updatedAt := now,
                      startDate := d } ∧
    (Task.updateTaskQ st id title notes owner d now).2 =
      some { row with title := title, notes := notes, updatedAt := now,
                      startDate := d } := by
  have hfind := Task.find?_map_update
    (fun t => { t with title := title, notes := notes, updatedAt := now,
                       startDate := d })
    (fun t => rfl) (fun t => rfl) id owner st.tasks row h
  unfold Task.updateTaskQ
  rw [h]
  dsimp only
  unfold Task.getTaskQ at hfind ⊢
  exact ⟨hfind, hfind⟩

/-- Helper: the tag-association insert never touches the task table. -/
theorem Task.createTaskTagQ_tasks (st : Task.Store) (tid g : Nat) :
    (Task.createTaskTagQ st tid g).tasks = st.tasks := by
  unfold Task.createTaskTagQ
  split <;> rfl

/-- Helper: re-inserting the tag set never touches the task table. -/
theorem Task.foldl_createTaskTagQ_tasks (tid : Nat) :
    ∀ (gs : List Nat) (st : Task.Store),
    (gs.foldl (fun s g => Task.createTaskTagQ s tid g) st).tasks = st.tasks := by
  intro gs
  induction gs with
  | nil => intro st; rfl
  | cons g rest ih =>
    intro st
    simp only [List.foldl_cons]
    rw [ih (Task.createTaskTagQ st tid g)]
    exact Task.createTaskTagQ_tasks st tid g

/-- Helper: `getTaskQ` reads only the task table. -/
theorem Task.getTaskQ_tasks_eq {st st' : Task.Store} (h : st'.tasks = st.tasks)
    (id : Nat) (owner : String) :
    Task.getTaskQ st' id owner = Task.getTaskQ st id owner := by
  unfold Task.getTaskQ
  rw [h]

/-- Helper: orphan-tag cleanup never touches the task table. -/
theorem Task.deleteOrphans_tasks (st : Task.Store) (o : String) :
    (Task.deleteOrphans st o).tasks = st.tasks := rfl

/-- Helper: `TaskRepository.Update` succeeds on the owner's task and
persists the new title, notes and start date onto its row. -/
theorem Task.repoUpdate_get (st : Task.Store) (t : Task.DomainTask)
    (now : Int) (row : Task.TaskRow)
    (h : Task.getTaskQ st t.id t.ownerID = some row) :
    (Task.repoUpdate st t now).2 = some () ∧
    Task.getTaskQ (Task.repoUpdate st t now).1 t.id t.ownerID =
      some { row with title := t.title, notes := t.notes, updatedAt := now,
                      startDate := t.startDate } := by
  obtain ⟨hg, hv⟩ := Task.updateTaskQ_get st t.id t.title t.notes t.ownerID
    t.startDate now row h
  unfold Task.repoUpdate
  rcases hu : Task.updateTaskQ st t.id t.title t.notes t.ownerID t.startDate
    now with ⟨st2, r?⟩
  rw [hu] at hg hv
  dsimp only at hg hv ⊢
  cases r? with
  | none => cases hv
  | some r =>
    refine ⟨rfl, ?_⟩
    have htasks : (t.tagIDs.foldl
        (fun s g => Task.createTaskTagQ s t.id g)
        (Task.deleteTaskTagsQ st2 t.id)).tasks = st2.tasks := by
      rw [Task.foldl_createTaskTagQ_tasks t.id t.tagIDs
        (Task.deleteTaskTagsQ st2 t.id)]
      rfl
    rw [Task.getTaskQ_tasks_eq htasks]
    exact hg

/-- Helper: `Service.UpdateTask` on an owned task succeeds and stores
the task row with the new title and notes, and with the start date
changed to the supplied value exactly when it was provided, untouched
otherwise. -/
theorem Task.svcUpdateTask_persisted (st : Task.Store) (owner : String)
    (id : Nat) (title notes : String) (tagNames : List String)
    (provided : Bool) (d : Option Task.Date) (now : Int) (row : Task.TaskRow)
    (h : Task.getTaskQ st id owner = some row) :
    (∃ t, (Task.svcUpdateTask st owner id title notes tagNames provided d
      now).2 = some t) ∧
    Task.getTaskQ (Task.svcUpdateTask st owner id title notes tagNames
      provided d now).1 id owner =
      some { row with title := title, notes := notes, updatedAt := now,
                      startDate := if provided then d else row.startDate } := by
  have h' : st.tasks.find? (fun t => t.id == id && t.ownerID == owner) =
      some row := h
  have hpred := List.find?_some h'
  rw [Bool.and_eq_true, beq_iff_eq, beq_iff_eq] at hpred
  obtain ⟨hrid, hrown⟩ := hpred
  have hget : Task.repoGet st id owner = some
      { id := row.id, title := row.title, notes := row.notes,
        tagIDs := Task.getTaskTagIDsQ st row.id,
        checklist := Task.listChecklistItemsQ st id owner,
        ownerID := row.ownerID, archivedAt := row.archivedAt,
        createdAt := row.createdAt, updatedAt := row.updatedAt,
        startDate := row.startDate } := by
    unfold Task.repoGet
    rw [h]
  unfold Task.svcUpdateTask
  rw [hget]
  dsimp only
  obtain ⟨ids, hids⟩ := Task.resolveTagIDs_noFail owner tagNames st 0
  obtain ⟨htasks1, -, -⟩ := Task.resolveTagIDs_preserves owner
    (fun _ => false) tagNames st 0
  rcases hres : Task.resolveTagIDs st owner (fun _ => false) 0 tagNames
    with ⟨st1, ids?⟩
  rw [hres] at hids htasks1
  dsimp only at hids htasks1
  cases ids? with
  | none => cases hids
  | some tagIDs =>
    dsimp only
    cases provided with
    | true =>
      rw [if_pos rfl]
      have hg1 : Task.getTaskQ st1 row.id row.ownerID = some row := by
        rw [Task.getTaskQ_tasks_eq htasks1, hrid, hrown]
        exact h
      obtain ⟨hru2, hrug⟩ := Task.repoUpdate_get st1
        ((Task.DomainTask.updateFields
          { id := row.id, title := row.title, notes := row.notes,
            tagIDs := Task.getTaskTagIDsQ st row.id,
            checklist := Task.listChecklistItemsQ st id owner,
            ownerID := row.ownerID, archivedAt := row.archivedAt,
            createdAt := row.createdAt, updatedAt := row.updatedAt,
            startDate := row.startDate } title notes tagIDs).setStartDate d)
        now row hg1
      rcases hru : Task.repoUpdate st1
        ((Task.DomainTask.updateFields
          { id := row.id, title := row.title, notes := row.notes,
            tagIDs := Task.getTaskTagIDsQ st row.id,
            checklist := Task.listChecklistItemsQ st id owner,
            ownerID := row.ownerID, archivedAt := row.archivedAt,
            createdAt := row.createdAt, updatedAt := row.updatedAt,
            startDate := row.startDate } title notes tagIDs).setStartDate d)
        now with ⟨st3, u?⟩
      rw [hru] at hru2 hrug
      dsimp only at hru2 hrug
      cases u? with
      | none => cases hru2
      | some u =>
        dsimp only
        refine ⟨⟨_, rfl⟩, ?_⟩
        rw [Task.getTaskQ_tasks_eq (Task.deleteOrphans_tasks st3 owner)]
        dsimp only [Task.DomainTask.updateFields,
          Task.DomainTask.setStartDate] at hrug
        rw [if_pos rfl, hrid, hrown]
        rw [hrid, hrown] at hrug
        exact hrug
    | false =>
      rw [if_neg (by simp)]
      have hg1 : Task.getTaskQ st1 row.id row.ownerID = some row := by
        rw [Task.getTaskQ_tasks_eq htasks1, hrid, hrown]
        exact h
      obtain ⟨hru2, hrug⟩ := Task.repoUpdate_get st1
        (Task.DomainTask.updateFields
          { id := row.id, title := row.title, notes := row.notes,
            tagIDs := Task.getTaskTagIDsQ st row.id,
            checklist := Task.listChecklistItemsQ st id owner,
            ownerID := row.ownerID, archivedAt := row.archivedAt,
            createdAt := row.createdAt, updatedAt := row.updatedAt,
            startDate := row.startDate } title notes tagIDs)
        now row hg1
      rcases hru : Task.repoUpdate st1
        (Task.DomainTask.updateFields
          { id := row.id, title := row.title, notes := row.notes,
            tagIDs := Task.getTaskTagIDsQ st row.id,
            checklist := Task.listChecklistItemsQ st id owner,
            ownerID := row.ownerID, archivedAt := row.archivedAt,
            createdAt := row.createdAt, updatedAt := row.updatedAt,
            startDate := row.startDate } title notes tagIDs)
        now with ⟨st3, u?⟩
      rw [hru] at hru2 hrug
      dsimp only at hru2 hrug
      cases u? with
      | none => cases hru2
      | some u =>
        dsimp only
        refine ⟨⟨_, rfl⟩, ?_⟩
        rw [Task.getTaskQ_tasks_eq (Task.deleteOrphans_tasks st3 owner)]
        dsimp only [Task.DomainTask.updateFields] at hrug
        rw [if_neg (by simp), hrid, hrown]
        rw [hrid, hrown] at hrug
        exact hrug

/-- C2: `UpdateTask` treats the start-date field as a tri-state.
Field absent: the update succeeds and the stored start date (hence the
inbox/scheduled classification) is exactly what it was.  Field
supplied empty: the stored date is cleared — the task reverts to
inbox.  Field supplied as a parseable date: the task becomes scheduled
on that date.  The three request forms are distinct values of the
interface and produce the three distinct behaviours. -/
theorem C2_updateTask_tristate (st : Task.Store) (owner : String)
    (req : Task.UpdateTaskRequest) (now : Int) (row : Task.TaskRow)
    (hrow : Task.getTaskQ st req.id owner = some row)
    (htitle : Task.validateNotEmpty req.title = true)
    (htlen : Task.validateLength req.title Task.maxTitleLength = true)
    (hnlen : Task.validateLength req.notes Task.maxNotesLength = true) :
    (req.startDate = none →
      ∃ t, (Task.grpcUpdateTask st owner req now).2 = .ok t ∧
        Task.getTaskQ (Task.grpcUpdateTask st owner req now).1 req.id owner =
          some { row with title := req.title, notes := req.notes,
                          updatedAt := now, startDate := row.startDate }) ∧
    (req.startDate = some "" →
      ∃ t, (Task.grpcUpdateTask st owner req now).2 = .ok t ∧
        Task.getTaskQ (Task.grpcUpdateTask st owner req now).1 req.id owner =
          some { row with title := req.title, notes := req.notes,
                          updatedAt := now, startDate := none }) ∧
    (∀ s dd, req.startDate = some s → s ≠ "" →
      Task.parseGoDate s = some dd →
      ∃ t, (Task.grpcUpdateTask st owner req now).2 = .ok t ∧
        Task.getTaskQ (Task.grpcUpdateTask st owner req now).1 req.id owner =
          some { row with title := req.title, notes := req.notes,
                          updatedAt := now, startDate := some dd }) := by
  refine ⟨?_, ?_, ?_⟩
  · intro hsd
    unfold Task.grpcUpdateTask
    rw [if_neg (by simp [htitle]), if_neg (by simp [htlen]),
      if_neg (by simp [hnlen]), hsd]
    dsimp only
    obtain ⟨⟨t, ht⟩, hg⟩ := Task.svcUpdateTask_persisted st owner req.id
      req.title req.notes req.tagNames false none now row hrow
    rcases hsvc : Task.svcUpdateTask st owner req.id req.title req.notes
      req.tagNames false none now with ⟨st', t?⟩
    rw [hsvc] at ht hg
    dsimp only at ht hg ⊢
    cases t? with
    | none => cases ht
    | some tv =>
      refine ⟨tv, rfl, ?_⟩
      rw [if_neg (by simp)] at hg
      exact hg
  · intro hsd
    unfold Task.grpcUpdateTask
    rw [if_neg (by simp [htitle]), if_neg (by simp [htlen]),
      if_neg (by simp [hnlen]), hsd]
    have hp : Task.parseStartDateForUpdate (some "") = .ok none := rfl
    dsimp only
    rw [hp]
    dsimp only
    obtain ⟨⟨t, ht⟩, hg⟩ := Task.svcUpdateTask_persisted st owner req.id
      req.title req.notes req.tagNames true none now row hrow
    rcases hsvc : Task.svcUpdateTask st owner req.id req.title req.notes
      req.tagNames true none now with ⟨st', t?⟩
    rw [hsvc] at ht hg
    dsimp only at ht hg ⊢
    cases t? with
    | none => cases ht
    | some tv =>
      refine ⟨tv, rfl, ?_⟩
      rw [if_pos rfl] at hg
      exact hg
  · intro s dd hsd hs hparse
    unfold Task.grpcUpdateTask
    rw [if_neg (by simp [htitle]), if_neg (by simp [htlen]),
      if_neg (by simp [hnlen]), hsd]
    have hp : Task.parseStartDateForUpdate (some s) = .ok (some dd) := by
      unfold Task.parseStartDateForUpdate
      dsimp only
      rw [if_neg hs, hparse]
    dsimp only
    rw [hp]
    dsimp only
    obtain ⟨⟨t, ht⟩, hg⟩ := Task.svcUpdateTask_persisted st owner req.id
      req.title req.notes req.tagNames true (some dd) now row hrow
    rcases hsvc : Task.svcUpdateTask st owner req.id req.title req.notes
      req.tagNames true (some dd) now with ⟨st', t?⟩
    rw [hsvc] at ht hg
    dsimp only at ht hg ⊢
    cases t? with
    | none => cases ht
    | some tv =>
      refine ⟨tv, rfl, ?_⟩
      rw [if_pos rfl] at hg
      exact hg

/-- C2 witness: the sample scheduled task updated three ways — field
absent keeps 2025-06-01, empty string clears to inbox, "2026-01-02"
reschedules. -/
theorem C2_updateTask_tristate_witness :
    (∃ t, (Task.grpcUpdateTask Task.sampleDateStore "u"
        ⟨1, "t2", "n2", [], none⟩ 5).2 = .ok t ∧
      Task.getTaskQ (Task.grpcUpdateTask Task.sampleDateStore "u"
        ⟨1, "t2", "n2", [], none⟩ 5).1 1 "u" =
        some ⟨1, "t2", "n2", "u", none, 0, 5, some ⟨2025, 6, 1⟩⟩) ∧
    (∃ t, (Task.grpcUpdateTask Task.sampleDateStore "u"
        ⟨1, "t2", "n2", [], some ""⟩ 5).2 = .ok t ∧
      Task.getTaskQ (Task.grpcUpdateTask Task.sampleDateStore "u"
        ⟨1, "t2", "n2", [], some ""⟩ 5).1 1 "u" =
        some ⟨1, "t2", "n2", "u", none, 0, 5, none⟩) ∧
    (∃ t, (Task.grpcUpdateTask Task.sampleDateStore "u"
        ⟨1, "t2", "n2", [], some "2026-01-02"⟩ 5).2 = .ok t ∧
      Task.getTaskQ (Task.grpcUpdateTask Task.sampleDateStore "u"
        ⟨1, "t2", "n2", [], some "2026-01-02"⟩ 5).1 1 "u" =
        some ⟨1, "t2", "n2", "u", none, 0, 5, some ⟨2026, 1, 2⟩⟩) := by
  refine ⟨?_, ?_, ?_⟩
  · exact (C2_updateTask_tristate Task.sampleDateStore "u"
      ⟨1, "t2", "n2", [], none⟩ 5
      ⟨1, "t", "n", "u", none, 0, 0, some ⟨2025, 6, 1⟩⟩
      (by decide) (by decide) (by decide) (by decide)).1 rfl
  · exact (C2_updateTask_tristate Task.sampleDateStore "u"
      ⟨1, "t2", "n2", [], some ""⟩ 5
      ⟨1, "t", "n", "u", none, 0, 0, some ⟨2025, 6, 1⟩⟩
      (by decide) (by decide) (by decide) (by decide)).2.1 rfl
  · exact (C2_updateTask_tristate Task.sampleDateStore "u"
      ⟨1, "t2", "n2", [], some "2026-01-02"⟩ 5
      ⟨1, "t", "n", "u", none, 0, 0, some ⟨2025, 6, 1⟩⟩
      (by decide) (by decide) (by decide) (by decide)).2.2 "2026-01-02"
      ⟨2026, 1, 2⟩ rfl (by decide) (by decide)

/-! ### C3: all-or-nothing checklist reorder -/

/-- Helper: positions in a duplicate-free list are injective on its
members. -/
theorem Task.idxInList_inj : ∀ {l : List Nat}, l.Nodup →
    ∀ {x y}, x ∈ l → y ∈ l →
    Task.idxInList x l = Task.idxInList y l → x = y := by
  intro l
  induction l with
  | nil =>
    intro _ x y hx
    cases hx
  | cons a as ih =>
    intro hnd x y hx hy hidx
    obtain ⟨hna, hnd'⟩ := List.nodup_cons.mp hnd
    unfold Task.idxInList at hidx
    by_cases hxa : x = a
    · by_cases hya : y = a
      · rw [hxa, hya]
      · rw [if_pos (by simp [hxa]), if_neg (by simp [Ne.symm hya])] at hidx
        cases hidx
    · by_cases hya : y = a
      · rw [if_neg (by simp [Ne.symm hxa]), if_pos (by simp [hya])] at hidx
        cases hidx
      · rw [if_neg (by simp [Ne.symm hxa]), if_neg (by simp [Ne.symm hya])]
          at hidx
        have hx' : x ∈ as := by
          cases List.mem_cons.mp hx with
          | inl h => exact absurd h hxa
          | inr h => exact h
        have hy' : y ∈ as := by
          cases List.mem_cons.mp hy with
          | inl h => exact absurd h hya
          | inr h => exact h
        exact ih hnd' hx' hy' (by omega)

/-- Helper: mapping each member of a duplicate-free list to its
position yields `0..n-1` in order. -/
theorem Task.map_idxInList_self : ∀ (l : List Nat), l.Nodup →
    l.map (fun x => Task.idxInList x l) = List.range l.length := by
  intro l
  induction l with
  | nil => intro _; rfl
  | cons a as ih =>
    intro hnd
    obtain ⟨hna, hnd'⟩ := List.nodup_cons.mp hnd
    rw [List.map_cons]
    have h0 : Task.idxInList a (a :: as) = 0 := by
      unfold Task.idxInList
      rw [if_pos (by simp)]
    have htail : as.map (fun x => Task.idxInList x (a :: as)) =
        as.map (fun x => Task.idxInList x as + 1) := by
      apply List.map_congr_left
      intro x hx
      have hxa : a ≠ x := fun h => hna (h ▸ hx)
      show Task.idxInList x (a :: as) = Task.idxInList x as + 1
      conv_lhs => unfold Task.idxInList
      rw [if_neg (by simp [hxa])]
    rw [h0, htail, List.length_cons, List.range_succ_eq_map]
    congr 1
    rw [← ih hnd', List.map_map]
    rfl

/-- Helper: sorting by the fixed total order is an equality test for
multiset (permutation) equality of id lists. -/
theorem Task.sortIds_eq_iff_perm {l1 l2 : List Nat} :
    Task.sortIds l1 = Task.sortIds l2 ↔ List.Perm l1 l2 := by
  constructor
  · intro h
    have h1 := List.perm_insertionSort (fun a b : Nat => a ≤ b) l1
    have h2 := List.perm_insertionSort (fun a b : Nat => a ≤ b) l2
    unfold Task.sortIds at h
    exact h1.symm.trans (h ▸ h2)
  · intro h
    unfold Task.sortIds
    have hperm : List.Perm (List.insertionSort (fun a b : Nat => a ≤ b) l1)
        (List.insertionSort (fun a b : Nat => a ≤ b) l2) :=
      (List.perm_insertionSort _ l1).trans
        (h.trans (List.perm_insertionSort _ l2).symm)
    exact List.eq_of_perm_of_sorted hperm
      (List.sorted_insertionSort _ l1) (List.sorted_insertionSort _ l2)

/-- Helper: the claim's "same cardinality and same membership" test is
exactly permutation equality when the reference list is
duplicate-free. -/
theorem Task.perm_iff_card_and_members {l ex : List Nat} (hex : ex.Nodup) :
    List.Perm l ex ↔ (l.length = ex.length ∧ l.toFinset = ex.toFinset) := by
  constructor
  · intro h
    exact ⟨h.length_eq, List.toFinset_eq_of_perm _ _ h⟩
  · rintro ⟨hlen, hfin⟩
    have hcard : l.dedup.length = ex.length := by
      rw [← List.card_toFinset, hfin, List.toFinset_card_of_nodup hex]
    have hnd : l.Nodup := by
      rw [← List.dedup_eq_self]
      exact (List.dedup_sublist l).eq_of_length (by omega)
    exact List.perm_of_nodup_nodup_toFinset_eq hnd hex hfin

/-- Helper: the checklist listing is a permutation of the task's
checklist rows (it is their sort). -/
theorem Task.listChecklist_perm_filter (st : Task.Store) (tid : Nat)
    (owner : String) (htask : (Task.getTaskQ st tid owner).isSome = true) :
    List.Perm (Task.listChecklistItemsQ st tid owner)
      (st.checklist.filter (fun c => c.taskID == tid)) := by
  unfold Task.listChecklistItemsQ
  rw [if_pos htask]
  exact List.perm_insertionSort _ _

/-- Helper: under the primary-key invariant, a listed checklist has
duplicate-free item ids. -/
theorem Task.listChecklist_ids_nodup (st : Task.Store) (tid : Nat)
    (owner : String) (hwf : (st.checklist.map (·.id)).Nodup)
    (htask : (Task.getTaskQ st tid owner).isSome = true) :
    ((Task.listChecklistItemsQ st tid owner).map (·.id)).Nodup := by
  have hsub : ((st.checklist.filter (fun c => c.taskID == tid)).map
      (·.id)).Nodup :=
    hwf.sublist ((List.filter_sublist _).map _)
  exact (((Task.listChecklist_perm_filter st tid owner htask).map
    (·.id)).nodup_iff).mpr hsub

/-- Helper: after the reorder UPDATE, the sort positions of the task's
rows are exactly the positions of their ids in the supplied array. -/
theorem Task.reorder_map_filter (tid : Nat) (ids : List Nat) (now : Int) :
    ∀ (l : List Task.ChecklistItem),
    (∀ c ∈ l, c.taskID = tid → c.id ∈ ids) →
    ((l.map (fun c =>
        if c.taskID == tid && ids.contains c.id then
          { c with sortOrder := (Task.idxInList c.id ids : Int),
                   updatedAt := now }
        else c)).filter (fun c => c.taskID == tid)).map (·.sortOrder) =
    ((l.filter (fun c => c.taskID == tid)).map (·.id)).map
      (fun x => (Task.idxInList x ids : Int)) := by
  intro l
  induction l with
  | nil => intro _; rfl
  | cons c0 cs ih =>
    intro hmem
    simp only [List.map_cons]
    by_cases ht : c0.taskID = tid
    · have hin : c0.id ∈ ids := hmem c0 (List.mem_cons_self _ _) ht
      have hcase : (c0.taskID == tid && ids.contains c0.id) = true := by
        simp [ht]
        exact hin
      rw [if_pos hcase]
      rw [List.filter_cons_of_pos (by simp [ht]),
        List.filter_cons_of_pos (by simp [ht])]
      simp only [List.map_cons]
      rw [ih (fun c hc h => hmem c (List.mem_cons_of_mem _ hc) h)]
    · by_cases hcase : (c0.taskID == tid && ids.contains c0.id) = true
      · rw [Bool.and_eq_true] at hcase
        exact absurd (beq_iff_eq.mp hcase.1) ht
      · rw [if_neg hcase]
        rw [List.filter_cons_of_neg (by simp [ht]),
          List.filter_cons_of_neg (by simp [ht])]
        exact ih (fun c hc h => hmem c (List.mem_cons_of_mem _ hc) h)

/-- Helper: `reorderQ_filter_sortOrders` at store level. -/
theorem Task.reorderQ_filter_sortOrders (st : Task.Store) (tid : Nat)
    (owner : String) (ids : List Nat) (now : Int)
    (htask : (Task.getTaskQ st tid owner).isSome = true)
    (hmem : ∀ c ∈ st.checklist, c.taskID = tid → c.id ∈ ids) :
    ((Task.reorderChecklistItemsQ st tid owner ids now).checklist.filter
      (fun c => c.taskID == tid)).map (·.sortOrder) =
    ((st.checklist.filter (fun c => c.taskID == tid)).map (·.id)).map
      (fun x => (Task.idxInList x ids : Int)) := by
  unfold Task.reorderChecklistItemsQ
  rw [if_pos htask]
  exact Task.reorder_map_filter tid ids now st.checklist hmem

/-- Helper: the reorder UPDATE never touches the task table. -/
theorem Task.reorderQ_tasks (st : Task.Store) (tid : Nat) (owner : String)
    (ids : List Nat) (now : Int) :
    (Task.reorderChecklistItemsQ st tid owner ids now).tasks = st.tasks := by
  unfold Task.reorderChecklistItemsQ
  split <;> rfl

/-- C3: a reorder whose id list is not exactly the current set of the
task's checklist item ids (same cardinality, same membership) fails
with `InvalidOrder` and leaves the store untouched; a matching list is
applied as one store update that gives every item of the task the sort
position of its id in the supplied order, and the listing afterwards
is contiguous `0..n-1`. -/
theorem C3_reorder_exact_set (st : Task.Store) (owner : String) (tid : Nat)
    (itemIDs : List Nat) (now : Int)
    (hwf : Task.WFChecklist st)
    (htask : (Task.getTaskQ st tid owner).isSome = true) :
    (¬ (itemIDs.length = (Task.listChecklistItemsQ st tid owner).length ∧
        itemIDs.toFinset =
          ((Task.listChecklistItemsQ st tid owner).map (·.id)).toFinset) →
      Task.svcReorderChecklistItems st owner tid itemIDs now = (st, none)) ∧
    ((itemIDs.length = (Task.listChecklistItemsQ st tid owner).length ∧
        itemIDs.toFinset =
          ((Task.listChecklistItemsQ st tid owner).map (·.id)).toFinset) →
      (∃ items, (Task.svcReorderChecklistItems st owner tid itemIDs
        now).2 = some items) ∧
      (∀ c ∈ (Task.svcReorderChecklistItems st owner tid itemIDs
          now).1.checklist, c.taskID = tid →
        c.sortOrder = (Task.idxInList c.id itemIDs : Int)) ∧
      Task.contiguous ((Task.listChecklistItemsQ
        (Task.svcReorderChecklistItems st owner tid itemIDs now).1 tid
        owner).map (·.sortOrder))) := by
  have hndEx : ((Task.listChecklistItemsQ st tid owner).map (·.id)).Nodup :=
    Task.listChecklist_ids_nodup st tid owner hwf.1 htask
  have hcond : List.Perm itemIDs
      ((Task.listChecklistItemsQ st tid owner).map (·.id)) ↔
      (itemIDs.length = (Task.listChecklistItemsQ st tid owner).length ∧
       itemIDs.toFinset =
         ((Task.listChecklistItemsQ st tid owner).map (·.id)).toFinset) := by
    rw [Task.perm_iff_card_and_members hndEx, List.length_map]
  constructor
  · intro hnc
    unfold Task.svcReorderChecklistItems
    by_cases hlen : (Task.listChecklistItemsQ st tid owner).length ≠
        itemIDs.length
    · rw [if_pos hlen]
    · rw [if_neg hlen]
      have hnp : ¬ List.Perm itemIDs
          ((Task.listChecklistItemsQ st tid owner).map (·.id)) :=
        fun hp => hnc (hcond.mp hp)
      have hs : Task.sortIds ((Task.listChecklistItemsQ st tid
          owner).map (·.id)) ≠ Task.sortIds itemIDs := by
        intro hq
        exact hnp (Task.sortIds_eq_iff_perm.mp hq).symm
      rw [if_pos hs]
  · intro hc
    have hperm : List.Perm itemIDs
        ((Task.listChecklistItemsQ st tid owner).map (·.id)) := hcond.mpr hc
    have hndIds : itemIDs.Nodup := (hperm.nodup_iff).mpr hndEx
    have hlen : ¬ ((Task.listChecklistItemsQ st tid owner).length ≠
        itemIDs.length) := by
      intro h
      exact h (by rw [← List.length_map (Task.listChecklistItemsQ st tid
        owner) (·.id), ← hperm.length_eq])
    have hseq : ¬ (Task.sortIds ((Task.listChecklistItemsQ st tid
        owner).map (·.id)) ≠ Task.sortIds itemIDs) := by
      intro h
      exact h (Task.sortIds_eq_iff_perm.mpr hperm.symm)
    have hmemids : ∀ c0 ∈ st.checklist, c0.taskID = tid →
        c0.id ∈ itemIDs := by
      intro c0 h0 htid
      have hf : c0 ∈ st.checklist.filter (fun c => c.taskID == tid) :=
        List.mem_filter.mpr ⟨h0, by simp [htid]⟩
      have hm : c0.id ∈ (st.checklist.filter
          (fun c => c.taskID == tid)).map (·.id) :=
        List.mem_map_of_mem _ hf
      have h2 : c0.id ∈ (Task.listChecklistItemsQ st tid owner).map (·.id) :=
        (((Task.listChecklist_perm_filter st tid owner htask).map
          (·.id)).mem_iff).mpr hm
      exact hperm.mem_iff.mpr h2
    unfold Task.svcReorderChecklistItems
    rw [if_neg hlen, if_neg hseq]
    dsimp only
    refine ⟨⟨_, rfl⟩, ?_, ?_⟩
    · intro c hcmem htid
      unfold Task.reorderChecklistItemsQ at hcmem
      rw [if_pos htask] at hcmem
      simp only [List.mem_map] at hcmem
      obtain ⟨c0, h0, rfl⟩ := hcmem
      by_cases hcase : (c0.taskID == tid && itemIDs.contains c0.id) = true
      · rw [if_pos hcase]
      · rw [if_neg hcase] at htid ⊢
        have hc0in : c0.id ∈ itemIDs := hmemids c0 h0 htid
        exact absurd (by simp [htid]; exact hc0in) hcase
    · have htasks' : (Task.reorderChecklistItemsQ st tid owner itemIDs
          now).tasks = st.tasks :=
        Task.reorderQ_tasks st tid owner itemIDs now
      have htask' : (Task.getTaskQ (Task.reorderChecklistItemsQ st tid owner
          itemIDs now) tid owner).isSome = true := by
        rw [Task.getTaskQ_tasks_eq htasks']
        exact htask
      have hLperm1 := (Task.listChecklist_perm_filter
        (Task.reorderChecklistItemsQ st tid owner itemIDs now) tid owner
        htask').map (·.sortOrder)
      have hfo := Task.reorderQ_filter_sortOrders st tid owner itemIDs now
        htask hmemids
      rw [hfo] at hLperm1
      have hperm2 : List.Perm ((st.checklist.filter
          (fun c => c.taskID == tid)).map (·.id)) itemIDs :=
        (((Task.listChecklist_perm_filter st tid owner htask).map
          (·.id)).symm.trans hperm.symm)
      have hLperm2 : List.Perm (((st.checklist.filter
          (fun c => c.taskID == tid)).map (·.id)).map
          (fun x => (Task.idxInList x itemIDs : Int)))
          (itemIDs.map (fun x => (Task.idxInList x itemIDs : Int))) :=
        hperm2.map _
      have hmapid : itemIDs.map (fun x => (Task.idxInList x itemIDs : Int)) =
          (List.range itemIDs.length).map Int.ofNat := by
        have h1 : itemIDs.map (fun x => (Task.idxInList x itemIDs : Int)) =
            (itemIDs.map (fun x => Task.idxInList x itemIDs)).map
              Int.ofNat := by
          rw [List.map_map]
          rfl
        rw [h1, Task.map_idxInList_self itemIDs hndIds]
      have hforward : List.Perm ((Task.listChecklistItemsQ
          (Task.reorderChecklistItemsQ st tid owner itemIDs now) tid
          owner).map (·.sortOrder))
          ((List.range itemIDs.length).map Int.ofNat) := by
        rw [← hmapid]
        exact hLperm1.trans hLperm2
      have hsortL : List.Pairwise (fun a b : Int => a ≤ b)
          ((Task.listChecklistItemsQ (Task.reorderChecklistItemsQ st tid
            owner itemIDs now) tid owner).map (·.sortOrder)) := by
        rw [List.pairwise_map]
        have hs := List.sorted_insertionSort Task.ciKeyLe
          ((Task.reorderChecklistItemsQ st tid owner itemIDs
            now).checklist.filter (fun c => c.taskID == tid))
        have hlq : Task.listChecklistItemsQ (Task.reorderChecklistItemsQ st
            tid owner itemIDs now) tid owner =
            ((Task.reorderChecklistItemsQ st tid owner itemIDs
              now).checklist.filter (fun c => c.taskID == tid)).insertionSort
              Task.ciKeyLe := by
          unfold Task.listChecklistItemsQ
          rw [if_pos htask']
        rw [hlq]
        refine hs.imp ?_
        intro a b hab
        unfold Task.ciKeyLe at hab
        omega
      have hsortR : List.Pairwise (fun a b : Int => a ≤ b)
          ((List.range itemIDs.length).map Int.ofNat) := by
        rw [List.pairwise_map]
        refine (List.pairwise_lt_range itemIDs.length).imp ?_
        intro a b hab
        exact Int.ofNat_le.mpr (Nat.le_of_lt hab)
      have heq := List.eq_of_perm_of_sorted hforward hsortL hsortR
      unfold Task.contiguous
      rw [heq, List.length_map, List.length_range]

/-- C3 witness: on the sample store (items 5 and 6), the stale list
`[5]` is rejected with no change, while `[5, 6]` reorders to
contiguous positions following the supplied order. -/
theorem C3_reorder_exact_set_witness :
    Task.svcReorderChecklistItems Task.sampleTaskStore "u" 1 [5] 9 =
      (Task.sampleTaskStore, none) ∧
    ((∃ items, (Task.svcReorderChecklistItems Task.sampleTaskStore "u" 1
        [5, 6] 9).2 = some items) ∧
      (∀ c ∈ (Task.svcReorderChecklistItems Task.sampleTaskStore "u" 1
          [5, 6] 9).1.checklist, c.taskID = 1 →
        c.sortOrder = (Task.idxInList c.id [5, 6] : Int)) ∧
      Task.contiguous ((Task.listChecklistItemsQ
        (Task.svcReorderChecklistItems Task.sampleTaskStore "u" 1 [5, 6]
          9).1 1 "u").map (·.sortOrder))) := by
  constructor
  · exact (C3_reorder_exact_set Task.sampleTaskStore "u" 1 [5] 9
      (by decide) (by decide)).1 (by decide)
  · exact (C3_reorder_exact_set Task.sampleTaskStore "u" 1 [5, 6] 9
      (by decide) (by decide)).2 (by decide)

/-! ### C4: CreateTask checklist seed and (non-)atomicity -/

/-- Helper: the checklist seed records the argument contents in
order. -/
theorem Task.seedChecklistAux_content : ∀ (l : List String) (i : Nat),
    (Task.seedChecklistAux i l).map (·.content) = l := by
  intro l
  induction l with
  | nil => intro i; rfl
  | cons c rest ih =>
    intro i
    unfold Task.seedChecklistAux
    rw [List.map_cons, ih (i + 1)]

/-- Helper: the checklist seed assigns sort positions `i, i+1, ...`. -/
theorem Task.seedChecklistAux_sortOrder : ∀ (l : List String) (i : Nat),
    (Task.seedChecklistAux i l).map (·.sortOrder) =
      (List.range l.length).map (fun k => ((i + k : Nat) : Int)) := by
  intro l
  induction l with
  | nil => intro i; rfl
  | cons c rest ih =>
    intro i
    unfold Task.seedChecklistAux
    rw [List.map_cons, ih (i + 1)]
    rw [List.length_cons, List.range_succ_eq_map, List.map_cons,
      List.map_map]
    congr 1
    apply List.map_congr_left
    intro k _
    simp only [Function.comp_apply]
    omega

/-- Helper: `CreateTask`'s seed keeps the argument order and numbers
the items `0..n-1`. -/
theorem Task.seedChecklist_spec (l : List String) :
    (Task.seedChecklist l).map (·.content) = l ∧
    (Task.seedChecklist l).map (·.sortOrder) =
      (List.range l.length).map Int.ofNat := by
  refine ⟨Task.seedChecklistAux_content l 0, ?_⟩
  unfold Task.seedChecklist
  rw [Task.seedChecklistAux_sortOrder l 0]
  apply List.map_congr_left
  intro k _
  simp

/-- Helper: the association insert leaves the checklist untouched. -/
theorem Task.createTaskTagQ_checklist (st : Task.Store) (tid g : Nat) :
    (Task.createTaskTagQ st tid g).checklist = st.checklist := by
  unfold Task.createTaskTagQ
  split <;> rfl

/-- Helper: the association insert keeps every existing
association. -/
theorem Task.createTaskTagQ_mono (st : Task.Store) (tid g : Nat)
    (p : Nat × Nat) (hp : p ∈ st.taskTags) :
    p ∈ (Task.createTaskTagQ st tid g).taskTags := by
  unfold Task.createTaskTagQ
  split
  · exact hp
  · exact List.mem_append_left _ hp

/-- Helper: after the insert (or its `ON CONFLICT DO NOTHING` no-op)
the association is present. -/
theorem Task.createTaskTagQ_mem (st : Task.Store) (tid g : Nat) :
    (tid, g) ∈ (Task.createTaskTagQ st tid g).taskTags := by
  unfold Task.createTaskTagQ
  split
  case _ h => simpa using h
  case _ h => exact List.mem_append_right _ (List.mem_singleton.mpr rfl)

/-- Helper: the association loop touches only the association table,
and never drops an association already present. -/
theorem Task.createTagAssocs_frame (tid : Nat) (f : Nat → Bool) :
    ∀ (gs : List Nat) (st : Task.Store) (i : Nat),
    (Task.createTagAssocs st tid f i gs).1.tasks = st.tasks ∧
    (Task.createTagAssocs st tid f i gs).1.checklist = st.checklist ∧
    ∀ p ∈ st.taskTags,
      p ∈ (Task.createTagAssocs st tid f i gs).1.taskTags := by
  intro gs
  induction gs with
  | nil => intro st i; exact ⟨rfl, rfl, fun p hp => hp⟩
  | cons g rest ih =>
    intro st i
    unfold Task.createTagAssocs
    by_cases hf : f i = true
    · rw [if_pos hf]
      exact ⟨rfl, rfl, fun p hp => hp⟩
    · rw [if_neg hf]
      obtain ⟨h1, h2, h3⟩ := ih (Task.createTaskTagQ st tid g) (i + 1)
      refine ⟨h1.trans (Task.createTaskTagQ_tasks st tid g),
        h2.trans (Task.createTaskTagQ_checklist st tid g), ?_⟩
      intro p hp
      exact h3 p (Task.createTaskTagQ_mono st tid g p hp)

/-- Helper: a successful association loop inserted every
association. -/
theorem Task.createTagAssocs_success (tid : Nat) (f : Nat → Bool) :
    ∀ (gs : List Nat) (st : Task.Store) (i : Nat),
    (Task.createTagAssocs st tid f i gs).2 = true →
    ∀ g ∈ gs, (tid, g) ∈ (Task.createTagAssocs st tid f i gs).1.taskTags := by
  intro gs
  induction gs with
  | nil =>
    intro st i _ g hg
    cases hg
  | cons g0 rest ih =>
    intro st i hok g hg
    unfold Task.createTagAssocs at hok ⊢
    by_cases hf : f i = true
    · rw [if_pos hf] at hok
      cases hok
    · rw [if_neg hf] at hok ⊢
      rcases List.mem_cons.mp hg with hg0 | hgr
      · subst hg0
        exact (Task.createTagAssocs_frame tid f rest
          (Task.createTaskTagQ st tid g) (i + 1)).2.2 _
          (Task.createTaskTagQ_mem st tid g)
      · exact ih (Task.createTaskTagQ st tid g0) (i + 1) hok g hgr

/-- C4 counterexample: creation is not all-or-nothing — on an empty
store, `CreateTask` with tags `["a", "b"]` whose second association
insert fails reports an error yet leaves the inserted task row and the
first association behind; and even the fully successful call persists
no row for the supplied checklist seed (the returned task alone
carries it). -/
theorem C4_create_not_atomic_counterexample :
    ((Task.svcCreateTask ⟨[], [], [], []⟩ "u" "T" "" ["a", "b"] none ["x"]
        (fun _ => false) (fun i => i == 1) 7).2 = none ∧
      ((Task.svcCreateTask ⟨[], [], [], []⟩ "u" "T" "" ["a", "b"] none ["x"]
        (fun _ => false) (fun i => i == 1) 7).1.tasks.map (·.id)) = [1] ∧
      (Task.svcCreateTask ⟨[], [], [], []⟩ "u" "T" "" ["a", "b"] none ["x"]
        (fun _ => false) (fun i => i == 1) 7).1.taskTags = [(1, 1)]) ∧
    ((Task.svcCreateTask ⟨[], [], [], []⟩ "u" "T" "" ["a", "b"] none ["x"]
        (fun _ => false) (fun _ => false) 7).2.map
          (fun t => t.checklist.map (·.content)) = some ["x"] ∧
      (Task.svcCreateTask ⟨[], [], [], []⟩ "u" "T" "" ["a", "b"] none ["x"]
        (fun _ => false) (fun _ => false) 7).1.checklist = []) :=
  ⟨⟨rfl, rfl, rfl⟩, rfl, rfl⟩

/-- C4 (amended): a successful `CreateTask` returns a task whose
checklist holds the seed contents in argument order with sort
positions `0..n-1`, and persists the task row and every tag
association — but it persists no checklist rows, and it is not atomic
(the counterexample shows a partially created task surviving an
association failure). -/
theorem C4_create_checklist_and_persistence (st : Task.Store)
    (owner title notes : String) (tagNames : List String)
    (startDate : Option Task.Date) (checklistItems : List String)
    (resolveFail assocFail : Nat → Bool) (now : Int) (t : Task.DomainTask)
    (hsucc : (Task.svcCreateTask st owner title notes tagNames startDate
        checklistItems resolveFail assocFail now).2 = some t) :
    t.checklist.map (·.content) = checklistItems ∧
    t.checklist.map (·.sortOrder) =
      (List.range checklistItems.length).map Int.ofNat ∧
    (Task.svcCreateTask st owner title notes tagNames startDate
        checklistItems resolveFail assocFail now).1.checklist =
      st.checklist ∧
    (⟨t.id, title, notes, owner, none, now, now, startDate⟩ :
        Task.TaskRow) ∈
      (Task.svcCreateTask st owner title notes tagNames startDate
        checklistItems resolveFail assocFail now).1.tasks ∧
    ∀ g ∈ t.tagIDs, (t.id, g) ∈
      (Task.svcCreateTask st owner title notes tagNames startDate
        checklistItems resolveFail assocFail now).1.taskTags := by
  have hpres := Task.resolveTagIDs_preserves owner resolveFail tagNames st 0
  rcases hres : Task.resolveTagIDs st owner resolveFail 0 tagNames
    with ⟨st1, ids?⟩
  rw [hres] at hpres
  cases ids? with
  | none =>
    unfold Task.svcCreateTask at hsucc
    rw [hres] at hsucc
    cases hsucc
  | some tagIDs =>
    have heq : Task.svcCreateTask st owner title notes tagNames startDate
        checklistItems resolveFail assocFail now =
        Task.repoCreate st1
          { id := 0, title := title, notes := notes, tagIDs := tagIDs,
            checklist := Task.seedChecklist checklistItems,
            ownerID := owner, archivedAt := none, createdAt := 0,
            updatedAt := 0, startDate := startDate } assocFail now := by
      unfold Task.svcCreateTask
      rw [hres]
    rw [heq] at hsucc ⊢
    by_cases hq : (Task.createTagAssocs
        (Task.createTaskQ st1 title notes owner startDate now).1
        (Task.createTaskQ st1 title notes owner startDate now).2.id
        assocFail 0 tagIDs).2 = true
    · have heq2 : Task.repoCreate st1
          { id := 0, title := title, notes := notes, tagIDs := tagIDs,
            checklist := Task.seedChecklist checklistItems,
            ownerID := owner, archivedAt := none, createdAt := 0,
            updatedAt := 0, startDate := startDate } assocFail now =
          ((Task.createTagAssocs
              (Task.createTaskQ st1 title notes owner startDate now).1
              (Task.createTaskQ st1 title notes owner startDate now).2.id
              assocFail 0 tagIDs).1,
            some { id := Task.freshTaskId st1, title := title,
                   notes := notes, tagIDs := tagIDs,
                   checklist := Task.seedChecklist checklistItems,
                   ownerID := owner, archivedAt := none,
                   createdAt := now, updatedAt := now,
                   startDate := startDate }) := by
        unfold Task.repoCreate
        dsimp only
        rw [if_pos hq]
        rfl
      rw [heq2] at hsucc ⊢
      injection hsucc with ht
      subst ht
      have hf := Task.createTagAssocs_frame
        (Task.createTaskQ st1 title notes owner startDate now).2.id assocFail
        tagIDs (Task.createTaskQ st1 title notes owner startDate now).1 0
      refine ⟨(Task.seedChecklist_spec checklistItems).1,
        (Task.seedChecklist_spec checklistItems).2, ?_, ?_, ?_⟩
      · exact hf.2.1.trans hpres.2.2
      · show _ ∈ (Task.createTagAssocs
          (Task.createTaskQ st1 title notes owner startDate now).1
          (Task.createTaskQ st1 title notes owner startDate now).2.id
          assocFail 0 tagIDs).1.tasks
        rw [hf.1]
        show _ ∈ st1.tasks ++
          [(Task.createTaskQ st1 title notes owner startDate now).2]
        exact List.mem_append_right _ (List.mem_singleton.mpr rfl)
      · intro g hg
        exact Task.createTagAssocs_success
          (Task.createTaskQ st1 title notes owner startDate now).2.id
          assocFail tagIDs
          (Task.createTaskQ st1 title notes owner startDate now).1 0 hq g hg
    · have hq' : (Task.createTagAssocs
          (Task.createTaskQ st1 title notes owner startDate now).1
          (Task.createTaskQ st1 title notes owner startDate now).2.id
          assocFail 0 tagIDs).2 = false := by
        simpa using hq
      have heq2 : Task.repoCreate st1
          { id := 0, title := title, notes := notes, tagIDs := tagIDs,
            checklist := Task.seedChecklist checklistItems,
            ownerID := owner, archivedAt := none, createdAt := 0,
            updatedAt := 0, startDate := startDate } assocFail now =
          ((Task.createTagAssocs
              (Task.createTaskQ st1 title notes owner startDate now).1
              (Task.createTaskQ st1 title notes owner startDate now).2.id
              assocFail 0 tagIDs).1, none) := by
        unfold Task.repoCreate
        dsimp only
        rw [if_neg hq]
      rw [heq2] at hsucc
      cases hsucc

/-- C4 witness: the successful call of the counterexample's second
part returns `sampleCreatedTask`; its checklist is `["x"]` at position
0, the task row and both tag associations are persisted, and the store
keeps an empty checklist table. -/
theorem C4_create_checklist_and_persistence_witness :
    Task.sampleCreatedTask.checklist.map (·.content) = ["x"] ∧
    Task.sampleCreatedTask.checklist.map (·.sortOrder) =
      (List.range (["x"] : List String).length).map Int.ofNat ∧
    (Task.svcCreateTask ⟨[], [], [], []⟩ "u" "T" "" ["a", "b"] none ["x"]
      (fun _ => false) (fun _ => false) 7).1.checklist = [] ∧
    (⟨1, "T", "", "u", none, 7, 7, none⟩ : Task.TaskRow) ∈
      (Task.svcCreateTask ⟨[], [], [], []⟩ "u" "T" "" ["a", "b"] none ["x"]
        (fun _ => false) (fun _ => false) 7).1.tasks ∧
    (1, 2) ∈ (Task.svcCreateTask ⟨[], [], [], []⟩ "u" "T" "" ["a", "b"]
      none ["x"] (fun _ => false) (fun _ => false) 7).1.taskTags := by
  have h := C4_create_checklist_and_persistence ⟨[], [], [], []⟩ "u" "T" ""
    ["a", "b"] none ["x"] (fun _ => false) (fun _ => false) 7
    Task.sampleCreatedTask rfl
  exact ⟨h.1, h.2.1, h.2.2.1, h.2.2.2.1, h.2.2.2.2 2 (by decide)⟩

/-! ### C5: checklist sort-position invariant across operations -/

/-- Helper: every member of a `Nat` list is bounded by its
`foldr max 0`. -/
theorem Task.le_foldr_max : ∀ (l : List Nat) (x : Nat), x ∈ l →
    x ≤ l.foldr max 0 := by
  intro l
  induction l with
  | nil =>
    intro x hx
    cases hx
  | cons y ys ih =>
    intro x hx
    simp only [List.foldr_cons]
    rcases List.mem_cons.mp hx with h | h
    · subst h
      exact Nat.le_max_left _ _
    · exact Nat.le_trans (ih x h) (Nat.le_max_right _ _)

/-- Helper: the modelled fresh checklist id is not a stored id. -/
theorem Task.freshItemId_not_mem (st : Task.Store) :
    ¬ Task.freshItemId st ∈ st.checklist.map (·.id) := by
  intro hmem
  have hle := Task.le_foldr_max (st.checklist.map (·.id)) _ hmem
  unfold Task.freshItemId at hle
  omega

/-- Helper: `foldl max` bounds its seed and every list member. -/
theorem Task.le_foldl_max : ∀ (as : List Int) (a x : Int),
    (x = a ∨ x ∈ as) → x ≤ as.foldl max a := by
  intro as
  induction as with
  | nil =>
    intro a x hx
    rcases hx with h | h
    · subst h
      exact le_refl x
    · cases h
  | cons b bs ih =>
    intro a x hx
    simp only [List.foldl_cons]
    rcases hx with h | h
    · subst h
      exact le_trans (le_max_left x b) (ih (max x b) (max x b) (Or.inl rfl))
    · rcases List.mem_cons.mp h with h' | h'
      · subst h'
        exact le_trans (le_max_right a x)
          (ih (max a x) (max a x) (Or.inl rfl))
      · exact ih (max a b) x (Or.inr h')

/-- Helper: an empty `MAX(sort_order)` means the task has no stored
checklist rows. -/
theorem Task.maxSortOrder?_none (st : Task.Store) (tid : Nat)
    (h : Task.maxSortOrder? st tid = none) (c : Task.ChecklistItem)
    (hc : c ∈ st.checklist) (htid : c.taskID = tid) : False := by
  have hmem : c.sortOrder ∈ (st.checklist.filter
      (fun x => x.taskID == tid)).map (·.sortOrder) :=
    List.mem_map_of_mem _ (List.mem_filter.mpr ⟨hc, by simp [htid]⟩)
  unfold Task.maxSortOrder? at h
  rcases hfl : (st.checklist.filter (fun x => x.taskID == tid)).map
      (·.sortOrder) with _ | ⟨y, ys⟩
  · rw [hfl] at hmem
    cases hmem
  · rw [hfl] at h
    have hmax : (y :: ys).max? = some (ys.foldl max y) := rfl
    rw [hmax] at h
    cases h

/-- Helper: `MAX(sort_order)` bounds every stored position of the
task. -/
theorem Task.le_maxSortOrder? (st : Task.Store) (tid : Nat) (m : Int)
    (h : Task.maxSortOrder? st tid = some m) (c : Task.ChecklistItem)
    (hc : c ∈ st.checklist) (htid : c.taskID = tid) : c.sortOrder ≤ m := by
  have hmem : c.sortOrder ∈ (st.checklist.filter
      (fun x => x.taskID == tid)).map (·.sortOrder) :=
    List.mem_map_of_mem _ (List.mem_filter.mpr ⟨hc, by simp [htid]⟩)
  unfold Task.maxSortOrder? at h
  rcases hfl : (st.checklist.filter (fun x => x.taskID == tid)).map
      (·.sortOrder) with _ | ⟨y, ys⟩
  · rw [hfl] at hmem
    cases hmem
  · rw [hfl] at h hmem
    have hmax : (y :: ys).max? = some (ys.foldl max y) := rfl
    rw [hmax] at h
    injection h with h'
    rw [← h']
    apply Task.le_foldl_max ys y c.sortOrder
    rcases List.mem_cons.mp hmem with h'' | h''
    · exact Or.inl h''
    · exact Or.inr h''

/-- Helper: inserting at `COALESCE(MAX(sort_order) + 1, 0)` preserves
the checklist invariants. -/
theorem Task.WF_addChecklistItemQ (st : Task.Store) (tid : Nat)
    (owner content : String) (now : Int) (hwf : Task.WFChecklist st) :
    Task.WFChecklist (Task.addChecklistItemQ st tid owner content now).1 := by
  unfold Task.addChecklistItemQ
  by_cases ht : (Task.getTaskQ st tid owner).isSome = true
  · rw [if_pos ht]
    dsimp only
    unfold Task.WFChecklist at hwf ⊢
    dsimp only
    constructor
    · rw [List.map_append]
      apply hwf.1.append (List.nodup_singleton _)
      intro a ha hb
      rw [List.mem_singleton] at hb
      subst hb
      exact Task.freshItemId_not_mem st ha
    · rw [List.map_append]
      split
      case _ heq =>
        apply hwf.2.append (List.nodup_singleton _)
        intro a ha hb
        rw [List.mem_singleton] at hb
        subst hb
        rw [List.mem_map] at ha
        obtain ⟨c, hc, hpc⟩ := ha
        have htid : c.taskID = tid := congrArg Prod.fst hpc
        exact Task.maxSortOrder?_none st tid heq c hc htid
      case _ m heq =>
        apply hwf.2.append (List.nodup_singleton _)
        intro a ha hb
        rw [List.mem_singleton] at hb
        subst hb
        rw [List.mem_map] at ha
        obtain ⟨c, hc, hpc⟩ := ha
        have htid : c.taskID = tid := congrArg Prod.fst hpc
        have hso : c.sortOrder = m + 1 := congrArg Prod.snd hpc
        have hle := Task.le_maxSortOrder? st tid m heq c hc htid
        omega
  · rw [if_neg ht]
    exact hwf

/-- Helper: a checklist rewrite whose per-row function keeps ids and,
on rows that pass the primary-key/uniqueness tests, keeps the
`(task, sort position)` key distinct, preserves the invariants. -/
theorem Task.WF_update_pointwise (st : Task.Store)
    (f : Task.ChecklistItem → Task.ChecklistItem)
    (hid : ∀ c, (f c).id = c.id)
    (hkey : ∀ a b, a ∈ st.checklist → b ∈ st.checklist →
      (a.taskID, a.sortOrder) ≠ (b.taskID, b.sortOrder) → a.id ≠ b.id →
      ((f a).taskID, (f a).sortOrder) ≠ ((f b).taskID, (f b).sortOrder))
    (hwf : Task.WFChecklist st) :
    Task.WFChecklist { st with checklist := st.checklist.map f } := by
  unfold Task.WFChecklist at hwf ⊢
  obtain ⟨h1, h2⟩ := hwf
  dsimp only
  constructor
  · rw [List.map_map]
    have hco : st.checklist.map ((fun c : Task.ChecklistItem => c.id) ∘ f) =
        st.checklist.map (fun c : Task.ChecklistItem => c.id) :=
      List.map_congr_left (fun c _ => hid c)
    rw [hco]
    exact h1
  · rw [List.map_map]
    have hpn : st.checklist.Pairwise (fun a b =>
        (a.taskID, a.sortOrder) ≠ (b.taskID, b.sortOrder)) :=
      List.pairwise_map.mp h2
    have hin : st.checklist.Pairwise (fun a b => a.id ≠ b.id) :=
      List.pairwise_map.mp h1
    apply List.pairwise_map.mpr
    exact (hpn.and hin).imp_of_mem
      (fun {a b} ha hb hab => hkey a b ha hb hab.1 hab.2)

/-- Helper: a rewrite that keeps id, task and sort position of every
row preserves the invariants. -/
theorem Task.WF_checklist_map (st : Task.Store)
    (f : Task.ChecklistItem → Task.ChecklistItem)
    (hid : ∀ c, (f c).id = c.id)
    (htask : ∀ c, (f c).taskID = c.taskID)
    (hsort : ∀ c, (f c).sortOrder = c.sortOrder)
    (hwf : Task.WFChecklist st) :
    Task.WFChecklist { st with checklist := st.checklist.map f } :=
  Task.WF_update_pointwise st f hid
    (fun a b _ _ hab _ => by
      rw [htask a, hsort a, htask b, hsort b]
      exact hab)
    hwf

/-- Helper: the content update preserves the invariants. -/
theorem Task.WF_updateContentQ (st : Task.Store) (iid : Nat)
    (content owner : String) (now : Int) (hwf : Task.WFChecklist st) :
    Task.WFChecklist
      (Task.updateChecklistItemContentQ st iid content owner now).1 := by
  unfold Task.updateChecklistItemContentQ
  split
  · exact hwf
  · exact Task.WF_checklist_map st _
      (fun c => by split <;> rfl)
      (fun c => by split <;> rfl)
      (fun c => by split <;> rfl) hwf

/-- Helper: the completion toggle preserves the invariants. -/
theorem Task.WF_setCompletedQ (st : Task.Store) (iid : Nat)
    (completed : Bool) (owner : String) (now : Int)
    (hwf : Task.WFChecklist st) :
    Task.WFChecklist
      (Task.setChecklistItemCompletedQ st iid completed owner now).1 := by
  unfold Task.setChecklistItemCompletedQ
  split
  · exact hwf
  · exact Task.WF_checklist_map st _
      (fun c => by split <;> rfl)
      (fun c => by split <;> rfl)
      (fun c => by split <;> rfl) hwf

/-- Helper: the delete preserves the invariants (it only drops a
row). -/
theorem Task.WF_deleteQ (st : Task.Store) (iid : Nat) (owner : String)
    (hwf : Task.WFChecklist st) :
    Task.WFChecklist (Task.deleteChecklistItemQ st iid owner).1 := by
  unfold Task.deleteChecklistItemQ
  dsimp only
  unfold Task.WFChecklist at hwf ⊢
  dsimp only
  exact ⟨hwf.1.sublist ((List.filter_sublist _).map _),
    hwf.2.sublist ((List.filter_sublist _).map _)⟩

/-- Helper: the reorder UPDATE preserves the invariants when the
supplied id list is duplicate-free and covers the task's rows. -/
theorem Task.WF_reorderQ (st : Task.Store) (tid : Nat) (owner : String)
    (ids : List Nat) (now : Int) (hwf : Task.WFChecklist st)
    (hnd : ids.Nodup)
    (hcover : ∀ c ∈ st.checklist, c.taskID = tid → c.id ∈ ids) :
    Task.WFChecklist (Task.reorderChecklistItemsQ st tid owner ids now) := by
  unfold Task.reorderChecklistItemsQ
  split
  · apply Task.WF_update_pointwise st _
      (fun c => by split <;> rfl) ?_ hwf
    intro a b ha hb hab hid'
    dsimp only
    by_cases ca : (a.taskID == tid && ids.contains a.id) = true
    · rw [if_pos ca]
      have ca' : a.taskID = tid ∧ a.id ∈ ids := by simpa using ca
      by_cases cb : (b.taskID == tid && ids.contains b.id) = true
      · rw [if_pos cb]
        have cb' : b.taskID = tid ∧ b.id ∈ ids := by simpa using cb
        intro heq
        have hsnd : (Task.idxInList a.id ids : Int) =
            (Task.idxInList b.id ids : Int) := congrArg Prod.snd heq
        exact hid' (Task.idxInList_inj hnd ca'.2 cb'.2 (Int.ofNat.inj hsnd))
      · rw [if_neg cb]
        have hbt : ¬ b.taskID = tid := by
          intro hb'
          exact cb (by simp [hb', hcover b hb hb'])
        intro heq
        exact hbt ((congrArg Prod.fst heq).symm.trans ca'.1)
    · rw [if_neg ca]
      have hat : ¬ a.taskID = tid := by
        intro ha'
        exact ca (by simp [ha', hcover a ha ha'])
      by_cases cb : (b.taskID == tid && ids.contains b.id) = true
      · rw [if_pos cb]
        have cb' : b.taskID = tid ∧ b.id ∈ ids := by simpa using cb
        intro heq
        exact hat ((congrArg Prod.fst heq).trans cb'.1)
      · rw [if_neg cb]
        exact hab
  · exact hwf

/-- Helper: the reorder service preserves the invariants: it either
rejects the request unchanged or hands the repository UPDATE a
duplicate-free id list covering exactly the task's rows. -/
theorem Task.WF_svcReorder (st : Task.Store) (owner : String) (tid : Nat)
    (ids : List Nat) (now : Int) (hwf : Task.WFChecklist st) :
    Task.WFChecklist (Task.svcReorderChecklistItems st owner tid ids now).1 := by
  unfold Task.svcReorderChecklistItems
  dsimp only
  split
  · exact hwf
  · split
    · exact hwf
    case _ h2 =>
      dsimp only
      have hperm : List.Perm
          ((Task.listChecklistItemsQ st tid owner).map (·.id)) ids :=
        Task.sortIds_eq_iff_perm.mp (not_ne_iff.mp h2)
      by_cases htq : (Task.getTaskQ st tid owner).isSome = true
      · have hnd : ids.Nodup :=
          hperm.nodup_iff.mp
            (Task.listChecklist_ids_nodup st tid owner hwf.1 htq)
        apply Task.WF_reorderQ st tid owner ids now hwf hnd
        intro c hc hct
        have hcf : c ∈ st.checklist.filter (fun x => x.taskID == tid) :=
          List.mem_filter.mpr ⟨hc, by simp [hct]⟩
        have hmemid : c.id ∈
            ((Task.listChecklistItemsQ st tid owner).map (·.id)) := by
          apply List.mem_map_of_mem
          exact ((Task.listChecklist_perm_filter st tid owner
            htq).mem_iff).mpr hcf
        exact hperm.mem_iff.mp hmemid
      · unfold Task.reorderChecklistItemsQ
        rw [if_neg htq]
        exact hwf

/-- Helper: every single checklist operation preserves the
invariants. -/
theorem Task.WF_applyOp (st : Task.Store) (op : Task.ChecklistOp)
    (hwf : Task.WFChecklist st) : Task.WFChecklist (Task.applyOp st op) := by
  cases op with
  | add tid ow c now =>
    exact Task.WF_addChecklistItemQ st tid ow c now hwf
  | updContent iid ow c now =>
    exact Task.WF_updateContentQ st iid c ow now hwf
  | setCompleted iid ow b now =>
    exact Task.WF_setCompletedQ st iid b ow now hwf
  | del iid ow =>
    exact Task.WF_deleteQ st iid ow hwf
  | reorder tid ow ids now =>
    exact Task.WF_svcReorder st ow tid ids now hwf

/-- Helper: every sequence of checklist operations preserves the
invariants. -/
theorem Task.WF_applyOps (ops : List Task.ChecklistOp) :
    ∀ (st : Task.Store), Task.WFChecklist st →
    Task.WFChecklist (Task.applyOps st ops) := by
  induction ops with
  | nil =>
    intro st h
    exact h
  | cons op rest ih =>
    intro st h
    exact ih (Task.applyOp st op) (Task.WF_applyOp st op h)

/-- Helper: under the invariants, the listed sort positions of any
task are strictly increasing. -/
theorem Task.listChecklist_sortOrders_increasing (st : Task.Store)
    (tid : Nat) (owner : String) (hwf : Task.WFChecklist st) :
    ((Task.listChecklistItemsQ st tid owner).map
      (·.sortOrder)).Pairwise (· < ·) := by
  unfold Task.listChecklistItemsQ
  split
  · have hperm : List.Perm (List.insertionSort Task.ciKeyLe
        (st.checklist.filter (fun c => c.taskID == tid)))
        (st.checklist.filter (fun c => c.taskID == tid)) :=
      List.perm_insertionSort _ _
    have hsorted : (List.insertionSort Task.ciKeyLe
        (st.checklist.filter (fun c => c.taskID == tid))).Pairwise
        Task.ciKeyLe :=
      List.sorted_insertionSort _ _
    have hpairs : ((st.checklist.filter (fun c => c.taskID == tid)).map
        (fun c => (c.taskID, c.sortOrder))).Nodup :=
      hwf.2.sublist ((List.filter_sublist _).map _)
    have hpairs' : ((List.insertionSort Task.ciKeyLe
        (st.checklist.filter (fun c => c.taskID == tid))).map
        (fun c => (c.taskID, c.sortOrder))).Nodup :=
      ((hperm.map _).nodup_iff).mpr hpairs
    have htid : ∀ c ∈ List.insertionSort Task.ciKeyLe
        (st.checklist.filter (fun c => c.taskID == tid)),
        c.taskID = tid := by
      intro c hc
      have hcf := hperm.mem_iff.mp hc
      have hbeq := (List.mem_filter.mp hcf).2
      simpa using hbeq
    have hne : (List.insertionSort Task.ciKeyLe
        (st.checklist.filter (fun c => c.taskID == tid))).Pairwise
        (fun a b => a.sortOrder ≠ b.sortOrder) := by
      have hp := List.pairwise_map.mp hpairs'
      exact hp.imp_of_mem (fun {a b} ha hb hab => by
        intro hso
        exact hab (by rw [htid a ha, htid b hb, hso]))
    apply List.pairwise_map.mpr
    apply (hsorted.and hne).imp
    intro a b h
    have hk := h.1
    unfold Task.ciKeyLe at hk
    rcases hk with hlt | ⟨heq, _⟩
    · exact hlt
    · exact absurd heq h.2
  · exact List.Pairwise.nil

/-- C5 counterexample: three appends followed by deleting the middle
item leave listed sort positions `[0, 2]` — the delete query does not
renumber survivors, so the contiguous gap-free claim fails. -/
theorem C5_delete_gap_counterexample :
    ¬ Task.contiguous ((Task.listChecklistItemsQ
      (Task.applyOps Task.sampleEmptyTaskStore
        [Task.ChecklistOp.add 1 "u" "a" 1, Task.ChecklistOp.add 1 "u" "b" 2,
         Task.ChecklistOp.add 1 "u" "c" 3, Task.ChecklistOp.del 2 "u"])
      1 "u").map (·.sortOrder)) := by
  decide

/-- C5 (amended): every sequence of checklist operations preserves the
store invariants (duplicate-free row ids and `(task, sort position)`
keys), and in every reachable state the listed sort positions of any
task are strictly increasing — sorted and duplicate-free, though not
necessarily contiguous (deleting a middle item leaves a gap, see the
counterexample). -/
theorem C5_checklist_positions (st : Task.Store)
    (ops : List Task.ChecklistOp) (tid : Nat) (owner : String)
    (hwf : Task.WFChecklist st) :
    Task.WFChecklist (Task.applyOps st ops) ∧
    ((Task.listChecklistItemsQ (Task.applyOps st ops) tid owner).map
      (·.sortOrder)).Pairwise (· < ·) := by
  have hwf' := Task.WF_applyOps ops st hwf
  exact ⟨hwf',
    Task.listChecklist_sortOrders_increasing (Task.applyOps st ops) tid
      owner hwf'⟩

/-- C5 witness: the counterexample's operation sequence (three appends
and a middle delete) keeps the invariants, and its listing `[0, 2]` is
strictly increasing even though it is not contiguous. -/
theorem C5_checklist_positions_witness :
    Task.WFChecklist (Task.applyOps Task.sampleEmptyTaskStore
      [Task.ChecklistOp.add 1 "u" "a" 1, Task.ChecklistOp.add 1 "u" "b" 2,
       Task.ChecklistOp.add 1 "u" "c" 3, Task.ChecklistOp.del 2 "u"]) ∧
    ((Task.listChecklistItemsQ (Task.applyOps Task.sampleEmptyTaskStore
      [Task.ChecklistOp.add 1 "u" "a" 1, Task.ChecklistOp.add 1 "u" "b" 2,
       Task.ChecklistOp.add 1 "u" "c" 3, Task.ChecklistOp.del 2 "u"])
      1 "u").map (·.sortOrder)).Pairwise (· < ·) :=
  C5_checklist_positions Task.sampleEmptyTaskStore
    [Task.ChecklistOp.add 1 "u" "a" 1, Task.ChecklistOp.add 1 "u" "b" 2,
     Task.ChecklistOp.add 1 "u" "c" 3, Task.ChecklistOp.del 2 "u"]
    1 "u" (by decide)

end SlipsCore
